import Mathlib

/-!
Verification of the GLTF asset loader (`AssetLoader/src/GLTFLoader.cpp`).

The C++ code is shallowly embedded over exact arithmetic: `float` values are
modelled as rationals (`ℚ`), 8-bit channel bytes as naturals, `float4x4` as
`Matrix (Fin 4) (Fin 4) ℚ`.  Operations provided by the external vector-math
library (quaternion slerp and renormalization, quaternion-to-matrix
conversion, bounding-box transform) are parameters of the embedding, since
their sources are not part of this repository.
-/

namespace GLTF

/-! ## Basic math types (external vector-math library, over ℚ) -/

abbrev Mat4 := Matrix (Fin 4) (Fin 4) ℚ

instance : DecidableEq Mat4 :=
  inferInstanceAs (DecidableEq (Fin 4 → Fin 4 → ℚ))

structure float3 where
  x : ℚ
  y : ℚ
  z : ℚ
deriving DecidableEq, Repr

/-- `QuaternionF`; the default value (`QuaternionF{}`) is the identity
rotation `(0, 0, 0, 1)`. -/
structure QuaternionF where
  x : ℚ
  y : ℚ
  z : ℚ
  w : ℚ
deriving DecidableEq, Repr

structure float4 where
  x : ℚ
  y : ℚ
  z : ℚ
  w : ℚ
deriving DecidableEq, Repr

instance : Inhabited float3 := ⟨⟨0, 0, 0⟩⟩

instance : Inhabited float4 := ⟨⟨0, 0, 0, 0⟩⟩

instance : Inhabited QuaternionF := ⟨⟨0, 0, 0, 1⟩⟩

def float4.xyz (v : float4) : float3 := ⟨v.x, v.y, v.z⟩

def float4.quat (v : float4) : QuaternionF := ⟨v.x, v.y, v.z, v.w⟩

/-- Modelled from the spec: `lerp` from the external math library —
component-wise linear interpolation `a + (b - a) * u`. -/
def lerp3 (a b : float3) (u : ℚ) : float3 :=
  ⟨a.x + (b.x - a.x) * u, a.y + (b.y - a.y) * u, a.z + (b.z - a.z) * u⟩

/-- Modelled from the spec: `clamp` from the external math library —
clamps `v` into `[lo, hi]`. -/
def clampQ (v lo hi : ℚ) : ℚ :=
  if v < lo then lo else if v > hi then hi else v

/-- Modelled from the spec: `float4x4::Translation` (row-vector convention,
translation components in the last row). -/
def translationMat (t : float3) : Mat4 :=
  Matrix.of ![![1, 0, 0, 0], ![0, 1, 0, 0], ![0, 0, 1, 0], ![t.x, t.y, t.z, 1]]

/-- Modelled from the spec: `float4x4::Scale` — diagonal scale matrix. -/
def scaleMat (s : float3) : Mat4 :=
  Matrix.of ![![s.x, 0, 0, 0], ![0, s.y, 0, 0], ![0, 0, s.z, 0], ![0, 0, 0, 1]]

/-- `BoundBox` over ℚ. -/
structure BoundBoxQ where
  bbMin : float3
  bbMax : float3
deriving DecidableEq, Repr

/-- Modelled from the spec: componentwise `std::min` on `float3`. -/
def vecMin (a b : float3) : float3 := ⟨min a.x b.x, min a.y b.y, min a.z b.z⟩

/-- Modelled from the spec: componentwise `std::max` on `float3`. -/
def vecMax (a b : float3) : float3 := ⟨max a.x b.x, max a.y b.y, max a.z b.z⟩

/-- `FLT_MAX`, exactly: `2^128 - 2^104`. -/
def fltMax : ℚ := 2 ^ 128 - 2 ^ 104

/-- Modelled from the spec: the operations of the external vector-math
library that the loader calls but whose sources are not part of this
repository: quaternion spherical interpolation (`slerp`), quaternion
renormalization (`normalize`), quaternion-to-matrix conversion
(`Quaternion::ToMatrix`), `float4x4::Inverse`, and `BoundBox::Transform`.
The embedding is parametric in them. -/
structure ExtMath where
  slerp : QuaternionF → QuaternionF → ℚ → QuaternionF
  normalizeQ : QuaternionF → QuaternionF
  quatToMatrix : QuaternionF → Mat4
  mat4Inv : Mat4 → Mat4
  bbTransform : Mat4 → BoundBoxQ → BoundBoxQ

/-! ## `PrepareGLTFTextureInitData`: RGB→RGBA expansion and alpha-cutoff remap

The loader converts decoded 8-bit images to RGBA level-0 data.  Pixels are
modelled as tuples of channel bytes (naturals in `[0, 255]`). -/

structure RGBA where
  r : ℕ
  g : ℕ
  b : ℕ
  a : ℕ
deriving DecidableEq, Repr

structure RGB where
  r : ℕ
  g : ℕ
  b : ℕ
deriving DecidableEq, Repr

/-- The alpha-remap of one alpha byte in `PrepareGLTFTextureInitData`
(the `NumComponents == 4`, `AlphaCutoff > 0` branch):

    dst[3] = std::max(src[3], static_cast<Uint8>(std::min(1.f/3.f * src[3] + 2.f/3.f * AlphaCutoff, 255.f)))

where `AlphaCutoff` has already been scaled by `255`.  The
`static_cast<Uint8>` of a nonnegative `float` truncates toward zero,
i.e. takes the floor. -/
def remapAlpha (alphaCutoff255 : ℚ) (a : ℕ) : ℕ :=
  max a (Int.toNat ⌊min ((1 / 3 : ℚ) * a + (2 / 3 : ℚ) * alphaCutoff255) 255⌋)

/-- The `NumComponents == 4` branch of `PrepareGLTFTextureInitData`, acting on
the pixel sequence of the image: when a positive alpha cutoff is supplied
(scaled to `[0,255]` by `AlphaCutoff *= 255.f`), RGB bytes are copied and the
alpha byte is remapped; otherwise the data is copied verbatim. -/
def prepareRGBALevel0 (alphaCutoff : ℚ) (pixels : List RGBA) : List RGBA :=
  if 0 < alphaCutoff then
    pixels.map fun p => ⟨p.r, p.g, p.b, remapAlpha (alphaCutoff * 255) p.a⟩
  else
    pixels

/-- The `NumComponents == 3` branch of `PrepareGLTFTextureInitData`:
three source bytes are copied and a constant `255` alpha byte is appended
per pixel. -/
def expandRGBToRGBA (pixels : List RGB) : List RGBA :=
  pixels.map fun p => ⟨p.r, p.g, p.b, 255⟩

/-- The alpha remap as the specification words it:
`A' = max(A, round(clamp(A/3 + 2/3·cutoff·255, 0, 255)))` with rounding to
the nearest integer.  Written from the spec, for comparison with
`remapAlpha`, which is translated from the source. -/
def remapAlphaSpec (alphaCutoff255 : ℚ) (a : ℕ) : ℕ :=
  max a (Int.toNat (round (min (max ((a : ℚ) / 3 + (2 / 3 : ℚ) * alphaCutoff255) 0) 255)))

/-! ## Materials and `Model::GetTextureAlphaCutoffValue` -/

inductive AlphaMode where
  | opq
  | mask
  | blend
deriving DecidableEq, Repr

/-- The per-material data read by `GetTextureAlphaCutoffValue`:
`Mat.TextureIds[BaseTexAttribIdx]`, `Mat.Attribs.AlphaMode`,
`Mat.Attribs.AlphaCutoff`. -/
structure Material where
  textureIds : ℕ → Int
  alphaMode : AlphaMode
  alphaCutoff : ℚ

/-- A texture attribute (`TextureAttributeDesc`): a name and the attribute
index it maps to. -/
structure TextureAttributeDesc where
  name : String
  index : ℕ

/-- `Model::GetTextureAttibuteIndex`: linear search of the texture
attributes for the given name; `-1` when absent. -/
def getTextureAttibuteIndex (attribs : List TextureAttributeDesc) (name : String) : Int :=
  match attribs.find? (fun a => a.name = name) with
  | some a => (a.index : Int)
  | none => -1

/-- The loop body of `GetTextureAlphaCutoffValue`, processing the materials
in order with the running `AlphaCutoff` accumulator (initially `-1`).
Materials that do not use `textureIndex` as base color, and opaque
materials, are skipped.  A conflict between an alpha-mask and an
alpha-blend user returns `0` immediately; conflicting mask thresholds keep
the minimum.  At the end the result is `max(AlphaCutoff, 0)`. -/
def alphaCutoffLoop (baseTexAttribIdx : ℕ) (textureIndex : Int) :
    List Material → ℚ → ℚ
  | [], acc => max acc 0
  | mat :: rest, acc =>
    if mat.textureIds baseTexAttribIdx ≠ textureIndex then
      alphaCutoffLoop baseTexAttribIdx textureIndex rest acc
    else if mat.alphaMode = AlphaMode.opq then
      alphaCutoffLoop baseTexAttribIdx textureIndex rest acc
    else
      let newAlphaCutoff := if mat.alphaMode = AlphaMode.mask then mat.alphaCutoff else 0
      if acc < 0 then
        alphaCutoffLoop baseTexAttribIdx textureIndex rest newAlphaCutoff
      else if acc ≠ newAlphaCutoff then
        if acc = 0 ∨ newAlphaCutoff = 0 then
          0
        else
          alphaCutoffLoop baseTexAttribIdx textureIndex rest (min acc newAlphaCutoff)
      else
        alphaCutoffLoop baseTexAttribIdx textureIndex rest acc

/-- `BaseColorTextureName`. -/
def BaseColorTextureName : String := "BaseColorTexture"

/-- `Model::GetTextureAlphaCutoffValue`: determines the alpha cutoff to use
for the alpha remap of texture `textureIndex` from the materials that
reference it as base color. -/
def getTextureAlphaCutoffValue (attribs : List TextureAttributeDesc)
    (materials : List Material) (textureIndex : Int) : ℚ :=
  match getTextureAttibuteIndex attribs BaseColorTextureName with
  | Int.negSucc _ => 0
  | Int.ofNat baseTexAttribIdx => alphaCutoffLoop baseTexAttribIdx textureIndex materials (-1)

/-- The material uses texture `textureIndex` as its base color. -/
def usesBase (baseTexAttribIdx : ℕ) (textureIndex : Int) (m : Material) : Prop :=
  m.textureIds baseTexAttribIdx = textureIndex

instance (b : ℕ) (t : Int) (m : Material) : Decidable (usesBase b t m) :=
  inferInstanceAs (Decidable (_ = _))

/-- The `NewAlphaCutoff` values considered by the loop of
`GetTextureAlphaCutoffValue`, in material order: one entry per non-opaque
material using the texture as base color — the material's cutoff for
alpha-mask materials, `0` for alpha-blend materials. -/
def relevantNewCutoffs (baseTexAttribIdx : ℕ) (textureIndex : Int)
    (mats : List Material) : List ℚ :=
  (mats.filter fun m =>
      decide (usesBase baseTexAttribIdx textureIndex m) &&
        !(m.alphaMode == AlphaMode.opq)).map
    fun m => if m.alphaMode = AlphaMode.mask then m.alphaCutoff else 0

/-- The cutoff values of the alpha-mask materials using the texture as
base color, in material order. -/
def maskCutoffs (baseTexAttribIdx : ℕ) (textureIndex : Int)
    (mats : List Material) : List ℚ :=
  (mats.filter fun m =>
      decide (usesBase baseTexAttribIdx textureIndex m) &&
        (m.alphaMode == AlphaMode.mask)).map
    fun m => m.alphaCutoff

/-! ## Node arena, animations and transforms -/

/-- A mesh as seen by the transform passes: whether it carries a valid
local bounding box (`Mesh::IsValidBB`) and the box itself (`Mesh::BB`). -/
structure MeshInfo where
  validBB : Bool
  bb : BoundBoxQ
deriving DecidableEq, Repr

/-- A skin: joint node indices (into `LinearNodes`) and one inverse-bind
matrix per joint. -/
structure Skin where
  joints : List ℕ
  inverseBindMatrices : List Mat4
deriving DecidableEq

/-- A node of the flat arena `LinearNodes`.  `index` is the node's stable
position (`Node::Index`); children are kept separately as an index tree
(`NodeTree`) since the traversal is the only consumer of the child links.
Local TRS fields default to identity values, the explicit matrix to the
identity matrix. -/
structure Node where
  index : ℕ
  translation : float3 := ⟨0, 0, 0⟩
  rotation : QuaternionF := ⟨0, 0, 0, 1⟩
  scale : float3 := ⟨1, 1, 1⟩
  matrix : Mat4 := 1
  mesh : Option MeshInfo := none
  skin : Option Skin := none
  skinTransformsIndex : ℕ := 0

instance : Inhabited Node := ⟨{ index := 0 }⟩

/-- The child links of the node tree: each tree node holds its
`LinearNodes` index and its children. -/
inductive NodeTree where
  | mk (idx : ℕ) (children : List NodeTree)

def NodeTree.idx : NodeTree → ℕ
  | .mk i _ => i

mutual

/-- All node indices of a subtree, in pre-order. -/
def treeIndices : NodeTree → List ℕ
  | NodeTree.mk i cs => i :: forestIndices cs

/-- All node indices of a forest of sibling subtrees. -/
def forestIndices : List NodeTree → List ℕ
  | [] => []
  | t :: ts => treeIndices t ++ forestIndices ts

end

mutual

/-- The (parent index, child index) pairs of a subtree. -/
def treeEdges : NodeTree → List (ℕ × ℕ)
  | NodeTree.mk i cs => (cs.map fun c => (i, c.idx)) ++ forestEdges cs

/-- The (parent index, child index) pairs of a forest. -/
def forestEdges : List NodeTree → List (ℕ × ℕ)
  | [] => []
  | t :: ts => treeEdges t ++ forestEdges ts

end

inductive InterpolationType where
  | linear
  | step
  | cubicspline
deriving DecidableEq, Repr

inductive PathType where
  | translation
  | rotation
  | scale
  | weights
deriving DecidableEq, Repr

/-- `AnimationSampler`: keyframe input times, output values and the
interpolation mode. -/
structure AnimationSampler where
  interpolation : InterpolationType
  inputs : List ℚ
  outputsVec4 : List float4

instance : Inhabited AnimationSampler := ⟨⟨InterpolationType.linear, [], []⟩⟩

/-- `AnimationChannel`: the sampler it reads, the target node's
`LinearNodes` index (`pNode->Index`) and the animated property. -/
structure AnimationChannel where
  samplerIndex : ℕ
  nodeIndex : ℕ
  pathType : PathType

/-- `Animation`: time range plus samplers and channels. -/
structure Animation where
  startTime : ℚ
  endTime : ℚ
  samplers : List AnimationSampler
  channels : List AnimationChannel

/-- The `Model` data used by `ComputeTransforms` / `UpdateAnimation`. -/
structure Model where
  linearNodes : List Node
  rootNodes : List NodeTree
  animations : List Animation
  skinTransformsCount : ℕ

/-- The transient per-node TRS written by the animation pass
(`ModelTransforms::NodeAnimations` entries). -/
structure NodeAnimation where
  translation : float3
  rotation : QuaternionF
  scale : float3
deriving DecidableEq, Repr

instance : Inhabited NodeAnimation := ⟨⟨⟨0, 0, 0⟩, ⟨0, 0, 0, 1⟩, ⟨1, 1, 1⟩⟩⟩

structure SkinTransforms where
  jointMatrices : List Mat4
deriving DecidableEq

instance : Inhabited SkinTransforms := ⟨⟨[]⟩⟩

/-- `ModelTransforms`: the per-frame output buffer. -/
structure ModelTransforms where
  nodeLocalMatrices : List Mat4 := []
  nodeGlobalMatrices : List Mat4 := []
  skins : List SkinTransforms := []
  nodeAnimations : List NodeAnimation := []
deriving DecidableEq

/-- `std::vector::resize(n)`: keep the first `n` elements, pad with
default-constructed values. -/
def resizeD {α : Type} (n : ℕ) (l : List α) (d : α) : List α :=
  l.take n ++ List.replicate (n - l.length) d

/-- An index loop writing entries `0 .. new.length - 1` of `old` (the
callers resize the vector first, so every write is in bounds). -/
def overwriteHead {α : Type} (new old : List α) : List α :=
  new ++ old.drop new.length

/-- `ComputeNodeLocalMatrix(Scale, Rotation, Translation, Matrix)`:
`LocalMatrix = S * R * T * M`, each factor skipped when it equals its
identity value. -/
def computeNodeLocalMatrix (E : ExtMath) (S : float3) (R : QuaternionF)
    (T : float3) (M : Mat4) : Mat4 :=
  let L := M
  let L := if T ≠ ⟨0, 0, 0⟩ then translationMat T * L else L
  let L := if R ≠ ⟨0, 0, 0, 1⟩ then E.quatToMatrix R * L else L
  let L := if S ≠ ⟨1, 1, 1⟩ then scaleMat S * L else L
  L

/-- `ComputeNodeLocalMatrix(N)` for a node `N`. -/
def nodeLocalMatrix (E : ExtMath) (N : Node) : Mat4 :=
  computeNodeLocalMatrix E N.scale N.rotation N.translation N.matrix

/-- The keyframe-bracket scan of `UpdateAnimation`: the first `i` with
`Inputs[i] ≤ time ≤ Inputs[i + 1]` (the loop breaks at the first hit). -/
def findBracket (inputs : List ℚ) (t : ℚ) : Option ℕ :=
  (List.range (inputs.length - 1)).find? fun i =>
    decide (inputs.getD i 0 ≤ t) && decide (t ≤ inputs.getD (i + 1) 0)

/-- The per-channel sampling of `UpdateAnimation`: find the keyframe
bracket, compute `u` (`0` unless the interpolation is LINEAR), and update
the targeted property of the node's transient TRS.  WEIGHTS channels are
unsupported and leave the TRS unchanged. -/
def sampleChannel (E : ExtMath) (sampler : AnimationSampler) (path : PathType)
    (t : ℚ) (A : NodeAnimation) : NodeAnimation :=
  match findBracket sampler.inputs t with
  | none => A
  | some i =>
    let u : ℚ :=
      if sampler.interpolation = InterpolationType.linear then
        (t - sampler.inputs.getD i 0) /
          (sampler.inputs.getD (i + 1) 0 - sampler.inputs.getD i 0)
      else 0
    let outI := sampler.outputsVec4.getD i default
    let outI1 := sampler.outputsVec4.getD (i + 1) default
    match path with
    | PathType.translation => { A with translation := lerp3 outI.xyz outI1.xyz u }
    | PathType.scale => { A with scale := lerp3 outI.xyz outI1.xyz u }
    | PathType.rotation => { A with rotation := E.normalizeQ (E.slerp outI.quat outI1.quat u) }
    | PathType.weights => A

/-- The body of `Model::UpdateAnimation` after the index check and the time
clamp: every node's transient TRS is initialized from its static TRS
(the resize followed by the loop rewrites every entry), each channel whose
sampler passes the `Inputs.size() <= OutputsVec4.size()` guard is sampled,
and every node's local matrix is recomputed from the resulting TRS. -/
def updateAnimationBody (E : ExtMath) (model : Model) (animation : Animation)
    (time : ℚ) (tr : ModelTransforms) : ModelTransforms :=
  let animsInit := model.linearNodes.map fun N => ⟨N.translation, N.rotation, N.scale⟩
  let anims := animation.channels.foldl
    (fun (NA : List NodeAnimation) channel =>
      let sampler := animation.samplers.getD channel.samplerIndex default
      if sampler.inputs.length > sampler.outputsVec4.length then NA
      else NA.set channel.nodeIndex
        (sampleChannel E sampler channel.pathType time (NA.getD channel.nodeIndex default)))
    animsInit
  let locals := List.zipWith
    (fun (N : Node) (A : NodeAnimation) =>
      computeNodeLocalMatrix E A.scale A.rotation A.translation N.matrix)
    model.linearNodes anims
  { tr with
    nodeAnimations := anims
    nodeLocalMatrices := overwriteHead locals tr.nodeLocalMatrices }

/-- `Model::UpdateAnimation(index, time, Transforms)`.  The boolean is
`true` when the index is out of range and only the "No animation with
index" warning is logged (the transforms are returned untouched). -/
def updateAnimation (E : ExtMath) (model : Model) (index : ℕ) (time : ℚ)
    (tr : ModelTransforms) : ModelTransforms × Bool :=
  match model.animations.get? index with
  | none => (tr, true)
  | some animation =>
    (updateAnimationBody E model animation
      (clampQ time animation.startTime animation.endTime) tr, false)

/-! ## Global-transform traversal and `ComputeTransforms` -/

mutual

/-- `UpdateNodeGlobalTransform(node, ParentMatrix, Transforms)`:
`Global[node] = Local[node] * Parent`, written into the global-matrix
array, then the children are visited depth-first pre-order with the
node's global matrix as their parent matrix. -/
def updateNodeGlobalTransform (locals : List Mat4) (parent : Mat4) :
    NodeTree → List Mat4 → List Mat4
  | NodeTree.mk idx children, globals =>
    let g := locals.getD idx 1 * parent
    updateForestGlobal locals g children (globals.set idx g)

/-- Visits a list of sibling subtrees in order, all with the same parent
matrix (the per-root loop of `ComputeTransforms` and the child loop of
`UpdateNodeGlobalTransform`). -/
def updateForestGlobal (locals : List Mat4) (parent : Mat4) :
    List NodeTree → List Mat4 → List Mat4
  | [], globals => globals
  | t :: ts, globals =>
    updateForestGlobal locals parent ts (updateNodeGlobalTransform locals parent t globals)

end

/-- The joint-matrix pass at the end of `ComputeTransforms`: for every node
bound to both a mesh and a skin,
`JointMatrices[i] = InverseBindMatrices[i] * Global[joint_i] * Inverse(Global[node])`
(the resize-then-rewrite of the joint array yields exactly one matrix per
joint). -/
def updateJointMatrices (E : ExtMath) (model : Model)
    (tr : ModelTransforms) : ModelTransforms :=
  if tr.skins.isEmpty then tr
  else
    model.linearNodes.foldl
      (fun (tr : ModelTransforms) node =>
        match node.mesh, node.skin with
        | some _, some skin =>
          let nodeGlobal := tr.nodeGlobalMatrices.getD node.index 1
          let inverseTransform := E.mat4Inv nodeGlobal
          let joints := (List.range skin.joints.length).map fun i =>
            skin.inverseBindMatrices.getD i 1 *
              tr.nodeGlobalMatrices.getD (skin.joints.getD i 0) 1 * inverseTransform
          { tr with skins := tr.skins.set node.skinTransformsIndex ⟨joints⟩ }
        | _, _ => tr)
      tr

/-- `Model::ComputeTransforms(Transforms, RootTransform, AnimationIndex, Time)`:
resize the local/global matrix arrays to the arena size, fill the local
matrices (through the animation evaluator when `AnimationIndex >= 0`,
directly from the static TRS otherwise), run the global-transform
traversal from each root, and update the joint matrices when skin output
is present. -/
def computeTransforms (E : ExtMath) (model : Model) (tr : ModelTransforms)
    (rootTransform : Mat4) (animationIndex : Int) (time : ℚ) : ModelTransforms :=
  let n := model.linearNodes.length
  let tr := { tr with
    nodeGlobalMatrices := resizeD n tr.nodeGlobalMatrices 1
    nodeLocalMatrices := resizeD n tr.nodeLocalMatrices 1 }
  let tr :=
    if 0 ≤ animationIndex then
      let tr := { tr with skins := resizeD model.skinTransformsCount tr.skins default }
      (updateAnimation E model animationIndex.toNat time tr).1
    else
      { tr with
        skins := []
        nodeLocalMatrices :=
          overwriteHead (model.linearNodes.map (nodeLocalMatrix E)) tr.nodeLocalMatrices }
  let tr := { tr with
    nodeGlobalMatrices :=
      updateForestGlobal tr.nodeLocalMatrices rootTransform model.rootNodes
        tr.nodeGlobalMatrices }
  updateJointMatrices E model tr

/-- `Model::CompatibleWithTransforms`: the local- and global-matrix arrays
both have exactly one entry per node of `LinearNodes`. -/
def compatibleWithTransforms (model : Model) (tr : ModelTransforms) : Bool :=
  tr.nodeLocalMatrices.length == model.linearNodes.length &&
    tr.nodeGlobalMatrices.length == model.linearNodes.length

/-- `Model::ComputeBoundingBox`: `none` models the
`UNEXPECTED("Incompatible transforms ...")` error branch; otherwise the
boxes of all mesh nodes with a valid BB are transformed by the node's
global matrix and aggregated by running min/max starting from
`(+FLT_MAX, -FLT_MAX)`. -/
def computeBoundingBox (E : ExtMath) (model : Model)
    (tr : ModelTransforms) : Option BoundBoxQ :=
  if compatibleWithTransforms model tr then
    some (model.linearNodes.foldl
      (fun (bb : BoundBoxQ) N =>
        match N.mesh with
        | some m =>
          if m.validBB then
            let nodeBB := E.bbTransform (tr.nodeGlobalMatrices.getD N.index 1) m.bb
            ⟨vecMin bb.bbMin nodeBB.bbMin, vecMax bb.bbMax nodeBB.bbMax⟩
          else bb
        | none => bb)
      ⟨⟨fltMax, fltMax, fltMax⟩, ⟨-fltMax, -fltMax, -fltMax⟩⟩)
  else
    none

/-! ## `Model::PrepareGPUResources`: deferred-payload materialization

The materialize phase runs on the single thread that owns GPU command
submission (spec §5), so a set of scene loads sharing cached resources is
modelled as a sequence of `PrepareGPUResources` calls over a shared
environment of user-data payload slots.  A slot stands for the
single-assignment user data of one shared resource — an atlas
suballocation or a cached texture/buffer object — and is keyed by that
resource's cache key. -/

/-- One mip level of `TextureInitData::Levels`. -/
structure LevelData where
  width : ℕ
  height : ℕ
deriving DecidableEq, Repr

/-- The descriptor data of a staging texture read by the copy loop. -/
structure StagingTexDesc where
  width : ℕ
  height : ℕ
  mipLevels : ℕ
deriving DecidableEq, Repr

/-- `TextureInitData`: a mip-level chain or a staging-texture marker
(mutually exclusive). -/
structure TextureInitData where
  levels : List LevelData
  stagingTex : Option StagingTexDesc
deriving DecidableEq, Repr

/-- The texture-descriptor data read by `PrepareGPUResources`:
`TexDesc.MipLevels`, and the format attributes used by the
staging-copy loop. -/
structure GpuTexDesc where
  mipLevels : ℕ
  fmtCompressed : Bool
  blockW : ℕ
  blockH : ℕ
deriving DecidableEq, Repr

/-- How a `TextureInfo` is backed: an atlas suballocation whose user-data
payload lives in shared slot `slot`, an owned/cached texture object with
user-data slot `slot`, or no texture at all (the `!pTexture` skip). -/
inductive TexBacking where
  | atlasSuballoc (slot : ℕ)
  | ownTexture (slot : ℕ)
  | noTexture
deriving DecidableEq, Repr

structure GpuTexInfo where
  backing : TexBacking
  desc : GpuTexDesc
deriving DecidableEq, Repr

/-- How a `BufferInfo` is backed (suballocation, owned buffer, or none). -/
inductive BufBacking where
  | suballoc (slot : ℕ)
  | ownBuffer (slot : ℕ)
  | noBuffer
deriving DecidableEq, Repr

structure GpuBufInfo where
  backing : BufBacking
deriving DecidableEq, Repr

/-- The per-model GPU state seen by `PrepareGPUResources`: the atomic
`GPUDataInitialized` flag and the texture/buffer lists. -/
structure GpuModel where
  gpuDataInitialized : Bool
  textures : List GpuTexInfo
  buffers : List GpuBufInfo
deriving DecidableEq, Repr

/-- The shared user-data slots: pending texture payloads and pending
buffer blobs (for buffers only the presence of the blob matters). -/
structure GpuEnv where
  texSlots : List (Option TextureInitData)
  bufSlots : List Bool
deriving DecidableEq, Repr

/-- The GPU commands issued through the device context, tagged with the
slot (cache key) of the resource they target. -/
inductive GpuCmd where
  | updateTexture (slot mip : ℕ)
  | copyTexture (slot mip : ℕ)
  | generateMips (slot : ℕ)
  | updateBuffer (slot : ℕ)
  | transitionResourceStates (numBarriers : ℕ)
deriving DecidableEq, Repr

/-- `GetMipLevelProperties`: logical width of mip `m`. -/
def mipWidth (d : StagingTexDesc) (m : ℕ) : ℕ := max (d.width >>> m) 1

/-- `GetMipLevelProperties`: logical height of mip `m`. -/
def mipHeight (d : StagingTexDesc) (m : ℕ) : ℕ := max (d.height >>> m) 1

/-- The `for (; SrcMips > 0; --SrcMips)` loop for compressed formats: drop
trailing source mips smaller than the compression block. -/
def trimSrcMips (d : StagingTexDesc) (blockW blockH : ℕ) : ℕ → ℕ
  | 0 => 0
  | m + 1 =>
    if blockW ≤ mipWidth d m ∧ blockH ≤ mipHeight d m then m + 1
    else trimSrcMips d blockW blockH m

/-- The upload commands issued for one texture whose payload was taken
from slot `slot`: one `UpdateTexture` per supplied mip level (plus a
GPU-side `GenerateMips` when only mip 0 was supplied, the texture has a
mip chain and no atlas is used), or one `CopyTexture` per staging mip. -/
def texUploadCmds (slot : ℕ) (tex : GpuTexInfo) (own : Bool)
    (p : TextureInitData) : List GpuCmd :=
  if p.levels ≠ [] then
    ((List.range p.levels.length).map fun mip => GpuCmd.updateTexture slot mip) ++
      (if p.levels.length = 1 ∧ 1 < tex.desc.mipLevels ∧ own then
        [GpuCmd.generateMips slot]
      else [])
  else
    match p.stagingTex with
    | some st =>
      let srcMips := min st.mipLevels tex.desc.mipLevels
      let srcMips :=
        if tex.desc.fmtCompressed then trimSrcMips st tex.desc.blockW tex.desc.blockH srcMips
        else srcMips
      (List.range srcMips).map fun mip => GpuCmd.copyTexture slot mip
    | none => []

/-- Processing of one texture inside `PrepareGPUResources`: atomically
take the payload from the backing resource's user-data slot
(`GetUserData` then `SetUserData(nullptr)`); a caller that finds the slot
already cleared skips silently.  Owned textures always contribute one
state-transition barrier; atlas textures never do.  Returns the issued
commands, the number of barriers recorded, and the updated slots. -/
def processTexture (env : GpuEnv) (tex : GpuTexInfo) :
    List GpuCmd × ℕ × GpuEnv :=
  match tex.backing with
  | TexBacking.noTexture => ([], 0, env)
  | TexBacking.atlasSuballoc s =>
    let pInitData := env.texSlots.getD s none
    let env := { env with texSlots := env.texSlots.set s none }
    match pInitData with
    | none => ([], 0, env)
    | some p => (texUploadCmds s tex false p, 0, env)
  | TexBacking.ownTexture s =>
    let pInitData := env.texSlots.getD s none
    let env := { env with texSlots := env.texSlots.set s none }
    match pInitData with
    | none => ([], 1, env)
    | some p => (texUploadCmds s tex true p, 1, env)

/-- Processing of one buffer inside `PrepareGPUResources`: take the blob
from the user-data slot and issue a single `UpdateBuffer` when one was
present.  Owned buffers with a blob contribute one barrier. -/
def processBuffer (env : GpuEnv) (buf : GpuBufInfo) :
    List GpuCmd × ℕ × GpuEnv :=
  match buf.backing with
  | BufBacking.noBuffer => ([], 0, env)
  | BufBacking.suballoc s =>
    let pInitData := env.bufSlots.getD s false
    let env := { env with bufSlots := env.bufSlots.set s false }
    (if pInitData then [GpuCmd.updateBuffer s] else [], 0, env)
  | BufBacking.ownBuffer s =>
    let pInitData := env.bufSlots.getD s false
    let env := { env with bufSlots := env.bufSlots.set s false }
    if pInitData then ([GpuCmd.updateBuffer s], 1, env) else ([], 0, env)

/-- One iteration of the texture loop of `PrepareGPUResources`,
accumulating issued commands and recorded barriers. -/
def texStep (acc : List GpuCmd × ℕ × GpuEnv) (tex : GpuTexInfo) :
    List GpuCmd × ℕ × GpuEnv :=
  let r := processTexture acc.2.2 tex
  (acc.1 ++ r.1, acc.2.1 + r.2.1, r.2.2)

/-- One iteration of the buffer loop of `PrepareGPUResources`. -/
def bufStep (acc : List GpuCmd × ℕ × GpuEnv) (buf : GpuBufInfo) :
    List GpuCmd × ℕ × GpuEnv :=
  let r := processBuffer acc.2.2 buf
  (acc.1 ++ r.1, acc.2.1 + r.2.1, r.2.2)

/-- `Model::PrepareGPUResources(pDevice, pCtx)`: return immediately when
`GPUDataInitialized` is set; otherwise process every texture and buffer,
issue the batched state transitions once at the end, and atomically set
the flag. -/
def prepareGPUResources (m : GpuModel) (env : GpuEnv) :
    GpuModel × GpuEnv × List GpuCmd :=
  if m.gpuDataInitialized then (m, env, [])
  else
    let acc := m.textures.foldl texStep ([], 0, env)
    let acc := m.buffers.foldl bufStep acc
    let cmds :=
      acc.1 ++ (if acc.2.1 ≠ 0 then [GpuCmd.transitionResourceStates acc.2.1] else [])
    ({ m with gpuDataInitialized := true }, acc.2.2, cmds)

/-- A sequence of `PrepareGPUResources` calls, one per loaded model, over
the shared slots (all GPU command submission happens on a single thread,
so calls from concurrent scene loads serialize).  Returns each caller's
command list and the final slots. -/
def runPrepare : List GpuModel → GpuEnv → List (List GpuCmd) × GpuEnv
  | [], env => ([], env)
  | m :: ms, env =>
    let r := prepareGPUResources m env
    let rest := runPrepare ms r.2.1
    (r.2.2 :: rest.1, rest.2)

/-- Whether a command is a GPU upload (`UpdateTexture`/`CopyTexture`) for
the resource in slot `k`. -/
def isTexUploadFor (k : ℕ) : GpuCmd → Bool
  | GpuCmd.updateTexture s _ => s == k
  | GpuCmd.copyTexture s _ => s == k
  | _ => false

/-- The user-data slot a texture backing reads, when any. -/
def backingSlot : TexBacking → Option ℕ
  | TexBacking.atlasSuballoc s => some s
  | TexBacking.ownTexture s => some s
  | TexBacking.noTexture => none

/-- Whether the model holds a texture backed (via the atlas or an owned
cached texture) by payload slot `k`. -/
def referencesTexSlot (m : GpuModel) (k : ℕ) : Bool :=
  m.textures.any fun t =>
    match t.backing with
    | TexBacking.atlasSuballoc s => s == k
    | TexBacking.ownTexture s => s == k
    | TexBacking.noTexture => false

/-! ## Concrete instances used by the witnesses -/

/-- A concrete instantiation of the external math operations, used to
evaluate the embedding on concrete inputs.  `slerp` here is only required
to satisfy the endpoint law `slerp a b 0 = a`, and `normalize` to fix the
unit keyframe quaternions of the demo data. -/
def E0 : ExtMath :=
  { slerp := fun a _ _ => a
    normalizeQ := fun q => q
    quatToMatrix := fun _ => 1
    mat4Inv := fun M => M
    bbTransform := fun _ bb => bb }

/-- Two translation keyframes `(t = 0, v = (0,0,0))` and
`(t = 2, v = (2,0,0))` with LINEAR interpolation. -/
def demoLinearSampler : AnimationSampler :=
  { interpolation := InterpolationType.linear
    inputs := [0, 2]
    outputsVec4 := [⟨0, 0, 0, 0⟩, ⟨2, 0, 0, 0⟩] }

/-- Two keyframes with STEP interpolation. -/
def demoStepSampler : AnimationSampler :=
  { interpolation := InterpolationType.step
    inputs := [0, 2]
    outputsVec4 := [⟨5, 6, 7, 1⟩, ⟨9, 9, 9, 9⟩] }

/-- A model with no animations. -/
def demoModelNoAnim : Model :=
  { linearNodes := [{ index := 0 }]
    rootNodes := [NodeTree.mk 0 []]
    animations := []
    skinTransformsCount := 0 }

/-- A two-node arena: node 0 is the root, node 1 its child, every node
with default TRS and identity matrix. -/
def demoModel2 : Model :=
  { linearNodes := [{ index := 0 }, { index := 1 }]
    rootNodes := [NodeTree.mk 0 [NodeTree.mk 1 []]]
    animations := []
    skinTransformsCount := 0 }

/-- A single texture attribute mapping the base-color name to index 0. -/
def demoAttribs : List TextureAttributeDesc := [⟨BaseColorTextureName, 0⟩]

/-- Two alpha-mask materials using texture 0 as base color, with cutoffs
`1/2` and `1/4`. -/
def demoMats : List Material :=
  [{ textureIds := fun _ => 0, alphaMode := AlphaMode.mask, alphaCutoff := 1 / 2 },
   { textureIds := fun _ => 0, alphaMode := AlphaMode.mask, alphaCutoff := 1 / 4 }]

/-- An animation moving node 0 along the demo translation channel,
covering times `[0, 2]`. -/
def demoAnimation : Animation :=
  { startTime := 0
    endTime := 2
    samplers := [demoLinearSampler]
    channels := [⟨0, 0, PathType.translation⟩] }

/-- A one-node model with the demo animation. -/
def demoModelAnim : Model :=
  { linearNodes := [{ index := 0 }]
    rootNodes := [NodeTree.mk 0 []]
    animations := [demoAnimation]
    skinTransformsCount := 0 }

/-- A pending payload with a single 4×4 mip level. -/
def demoPayload : TextureInitData := { levels := [⟨4, 4⟩], stagingTex := none }

/-- A loaded model holding one atlas-backed texture whose payload lives in
shared slot 0. -/
def demoGpuModel : GpuModel :=
  { gpuDataInitialized := false
    textures := [{ backing := TexBacking.atlasSuballoc 0
                   desc := { mipLevels := 1, fmtCompressed := false, blockW := 1, blockH := 1 } }]
    buffers := [] }

/-! ## List helper lemmas -/

theorem getDSetSelf {α : Type} (l : List α) (i : ℕ) (a d : α) (h : i < l.length) :
    (l.set i a).getD i d = a := by
  simp [List.getD, List.getElem?_set_self, h]

theorem getDSetNe {α : Type} (l : List α) {i j : ℕ} (a : α) (d : α) (h : i ≠ j) :
    (l.set i a).getD j d = l.getD j d := by
  simp [List.getD, List.getElem?_set_ne h]

theorem getDOfLe {α : Type} (l : List α) (i : ℕ) (d : α) (h : l.length ≤ i) :
    l.getD i d = d := by
  simp [List.getD, List.getElem?_eq_none h]

theorem resizeDLength {α : Type} (n : ℕ) (l : List α) (d : α) :
    (resizeD n l d).length = n := by
  simp [resizeD]
  omega

theorem overwriteHeadOfLe {α : Type} (new old : List α) (h : old.length ≤ new.length) :
    overwriteHead new old = new := by
  simp [overwriteHead, List.drop_eq_nil_of_le h]

theorem overwriteHeadLength {α : Type} (new old : List α) (h : old.length = new.length) :
    (overwriteHead new old).length = new.length := by
  rw [overwriteHeadOfLe new old (le_of_eq h)]

/-! ## C2: idempotence of `PrepareGPUResources` -/

theorem prepareFlagSet (m : GpuModel) (env : GpuEnv) :
    (prepareGPUResources m env).1.gpuDataInitialized = true := by
  unfold prepareGPUResources
  by_cases h : m.gpuDataInitialized
  · simp [h]
  · simp [h]

theorem prepareOfFlag (m : GpuModel) (env : GpuEnv) (h : m.gpuDataInitialized = true) :
    prepareGPUResources m env = (m, env, []) := by
  unfold prepareGPUResources
  simp [h]

/-- C2: `PrepareGPUResources` is idempotent per model.  A second (or any
later) call on a model already prepared issues no commands — in
particular no uploads and no state-transition barriers — and returns
model and shared slots unchanged, because the per-model
`GPUDataInitialized` flag is checked on entry and set after all resources
are processed. -/
theorem prepareGPUResourcesIdempotent (m : GpuModel) (env : GpuEnv) :
    prepareGPUResources (prepareGPUResources m env).1 (prepareGPUResources m env).2.1 =
      ((prepareGPUResources m env).1, (prepareGPUResources m env).2.1, []) :=
  prepareOfFlag _ _ (prepareFlagSet m env)

/-! ## C8: out-of-range animation index is a warning and a no-op -/

/-- C8: requesting an animation update with an out-of-range index is
recoverable: the "No animation with index" warning is logged (the boolean
component), no keyframe sampling happens and the transform data the
update would have written is returned unchanged. -/
theorem updateAnimationOutOfRange (E : ExtMath) (model : Model) (index : ℕ) (time : ℚ)
    (tr : ModelTransforms) (h : model.animations.length ≤ index) :
    updateAnimation E model index time tr = (tr, true) := by
  unfold updateAnimation
  rw [List.get?_eq_none.mpr h]

theorem updateAnimationOutOfRangeW :
    demoModelNoAnim.animations.length ≤ 3 ∧
      updateAnimation E0 demoModelNoAnim 3 (7 : ℚ) {} = ({}, true) :=
  ⟨by decide, updateAnimationOutOfRange E0 demoModelNoAnim 3 7 {} (by decide)⟩

/-! ## C7: the alpha-cutoff remap

The spec words the remap with rounding to nearest
(`A' = max(A, round(clamp(A/3 + 2/3·cutoff·255, 0, 255)))`), but the
source truncates: `static_cast<Uint8>` of the nonnegative blended value
takes the floor.  The two disagree, e.g. at `A = 2`, `cutoff = 1/2`. -/

/-- C7 counterexample: at source alpha `2` and cutoff `1/2` the code
produces alpha `85` (truncation of `85.67`), while the claimed formula
with `round` produces `86`. -/
theorem alphaRemapRoundCounterexample :
    prepareRGBALevel0 (1 / 2) [⟨0, 0, 0, 2⟩] = [⟨0, 0, 0, 85⟩] ∧
      remapAlphaSpec ((1 / 2) * 255) 2 = 86 ∧
      prepareRGBALevel0 (1 / 2) [⟨0, 0, 0, 2⟩] ≠
        [⟨0, 0, 0, remapAlphaSpec ((1 / 2) * 255) 2⟩] := by
  have h1 : remapAlpha ((1 / 2 : ℚ) * 255) 2 = 85 := by
    unfold remapAlpha
    norm_num [min_def]
    decide
  have h2 : remapAlphaSpec ((1 / 2 : ℚ) * 255) 2 = 86 := by
    unfold remapAlphaSpec
    norm_num [min_def, max_def, round_eq]
    decide
  have h3 : prepareRGBALevel0 (1 / 2) [⟨0, 0, 0, 2⟩] = [⟨0, 0, 0, 85⟩] := by
    unfold prepareRGBALevel0
    rw [if_pos (by norm_num : (0 : ℚ) < 1 / 2)]
    simp only [List.map_cons, List.map_nil]
    rw [h1]
  refine ⟨h3, h2, ?_⟩
  rw [h3, h2]
  decide

/-- C7 (amended): with a cutoff in `(0, 1]` supplied for a 4-component
8-bit image, every pixel's RGB bytes are copied unchanged and the alpha
byte is remapped to `A' = max(A, floor(clamp(A/3 + 2/3·cutoff·255, 0, 255)))`
— truncation toward zero, not rounding to nearest. -/
theorem alphaRemapTruncated (cutoff : ℚ) (pixels : List RGBA)
    (h0 : 0 < cutoff) (h1 : cutoff ≤ 1) :
    prepareRGBALevel0 cutoff pixels =
      pixels.map fun p =>
        ⟨p.r, p.g, p.b,
          max p.a (Int.toNat ⌊min (max ((p.a : ℚ) / 3 + 2 / 3 * (cutoff * 255)) 0) 255⌋)⟩ := by
  unfold prepareRGBALevel0
  rw [if_pos h0]
  refine List.map_congr_left ?_
  intro p _
  unfold remapAlpha
  have ha : (0 : ℚ) ≤ (p.a : ℚ) := Nat.cast_nonneg _
  have hx : 0 ≤ (p.a : ℚ) / 3 + 2 / 3 * (cutoff * 255) := by nlinarith
  rw [max_eq_left hx]
  have harg : (1 / 3 : ℚ) * (p.a : ℚ) + (2 / 3 : ℚ) * (cutoff * 255) =
      (p.a : ℚ) / 3 + 2 / 3 * (cutoff * 255) := by ring
  rw [harg]

/-- C7 witness: in particular, source alpha `0` with cutoff `1/2` yields
remapped alpha `85`, RGB untouched. -/
theorem alphaRemapTruncatedW :
    (0 : ℚ) < 1 / 2 ∧ (1 / 2 : ℚ) ≤ 1 ∧
      prepareRGBALevel0 (1 / 2) [⟨3, 4, 5, 0⟩] = [⟨3, 4, 5, 85⟩] :=
  ⟨by norm_num, by norm_num,
    (alphaRemapTruncated (1 / 2) [⟨3, 4, 5, 0⟩] (by norm_num) (by norm_num)).trans (by
      norm_num [min_def, max_def]
      decide)⟩

/-! ## C10: `GetTextureAlphaCutoffValue` -/

theorem relCons (b : ℕ) (t : Int) (m : Material) (rest : List Material) :
    relevantNewCutoffs b t (m :: rest) =
      if usesBase b t m ∧ m.alphaMode ≠ AlphaMode.opq then
        (if m.alphaMode = AlphaMode.mask then m.alphaCutoff else 0) ::
          relevantNewCutoffs b t rest
      else relevantNewCutoffs b t rest := by
  by_cases h1 : usesBase b t m <;> by_cases h2 : m.alphaMode = AlphaMode.opq <;>
    simp [relevantNewCutoffs, List.filter_cons, h1, h2]

theorem maskConsC (b : ℕ) (t : Int) (m : Material) (rest : List Material) :
    maskCutoffs b t (m :: rest) =
      if usesBase b t m ∧ m.alphaMode = AlphaMode.mask then
        m.alphaCutoff :: maskCutoffs b t rest
      else maskCutoffs b t rest := by
  by_cases h1 : usesBase b t m <;> by_cases h2 : m.alphaMode = AlphaMode.mask <;>
    simp [maskCutoffs, List.filter_cons, h1, h2]

theorem relEqMaskOfOnlyMask (b : ℕ) (t : Int) (mats : List Material)
    (honly : ∀ m ∈ mats, usesBase b t m → m.alphaMode ≠ AlphaMode.opq →
      m.alphaMode = AlphaMode.mask) :
    relevantNewCutoffs b t mats = maskCutoffs b t mats := by
  induction mats with
  | nil => simp [relevantNewCutoffs, maskCutoffs]
  | cons m rest ih =>
    rw [relCons, maskConsC]
    have hrest : relevantNewCutoffs b t rest = maskCutoffs b t rest :=
      ih fun x hx => honly x (List.mem_cons_of_mem _ hx)
    by_cases h1 : usesBase b t m
    · by_cases h2 : m.alphaMode = AlphaMode.mask
      · have hno : m.alphaMode ≠ AlphaMode.opq := by
          rw [h2]
          intro h
          cases h
        simp [h1, h2, hno, hrest]
      · have h3 : m.alphaMode = AlphaMode.opq := by
          by_contra h3
          exact h2 (honly m (List.mem_cons_self _ _) h1 h3)
        simp [h1, h2, h3, hrest]
    · simp [h1, hrest]

theorem relNonneg (b : ℕ) (t : Int) (mats : List Material)
    (hnn : ∀ m ∈ mats, 0 ≤ m.alphaCutoff) :
    ∀ c ∈ relevantNewCutoffs b t mats, 0 ≤ c := by
  intro c hc
  unfold relevantNewCutoffs at hc
  obtain ⟨m, hm, hcm⟩ := List.mem_map.mp hc
  have hmem : m ∈ mats := List.mem_of_mem_filter hm
  by_cases h : m.alphaMode = AlphaMode.mask
  · rw [if_pos h] at hcm
    exact hcm ▸ hnn m hmem
  · rw [if_neg h] at hcm
    exact hcm ▸ le_refl 0

theorem foldlMinOfLe (l : List ℚ) (a : ℚ) (h : ∀ c ∈ l, a ≤ c) :
    l.foldl min a = a := by
  induction l generalizing a with
  | nil => rfl
  | cons c cs ih =>
    have hac : min a c = a := min_eq_left (h c (List.mem_cons_self _ _))
    simp only [List.foldl_cons, hac]
    exact ih a fun x hx => h x (List.mem_cons_of_mem _ hx)

theorem foldlMinLeInit (l : List ℚ) (a : ℚ) : l.foldl min a ≤ a := by
  induction l generalizing a with
  | nil => exact le_refl a
  | cons c cs ih =>
    simp only [List.foldl_cons]
    exact le_trans (ih (min a c)) (min_le_left a c)

theorem foldlMinLeMem (l : List ℚ) (a x : ℚ) (hx : x ∈ l) : l.foldl min a ≤ x := by
  induction l generalizing a with
  | nil => cases hx
  | cons c cs ih =>
    simp only [List.foldl_cons]
    rcases List.mem_cons.mp hx with h | h
    · exact le_trans (foldlMinLeInit cs (min a c)) (h ▸ min_le_right a c)
    · exact ih (min a c) h

theorem headIMem {α : Type} [Inhabited α] (l : List α) (h : l ≠ []) : l.headI ∈ l := by
  cases l with
  | nil => exact absurd rfl h
  | cons c cs => exact List.mem_cons_self _ _

theorem foldlMinNonneg (l : List ℚ) (a : ℚ) (ha : 0 ≤ a) (h : ∀ c ∈ l, 0 ≤ c) :
    0 ≤ l.foldl min a := by
  induction l generalizing a with
  | nil => exact ha
  | cons c cs ih =>
    simp only [List.foldl_cons]
    exact ih (min a c) (le_min ha (h c (List.mem_cons_self _ _)))
      fun x hx => h x (List.mem_cons_of_mem _ hx)

theorem loopNonneg (b : ℕ) (t : Int) (mats : List Material) (acc : ℚ) :
    0 ≤ alphaCutoffLoop b t mats acc := by
  induction mats generalizing acc with
  | nil => exact le_max_right acc 0
  | cons m rest ih =>
    simp only [alphaCutoffLoop]
    repeat' split
    all_goals first
      | exact le_rfl
      | exact ih _

theorem loopMin (b : ℕ) (t : Int) (mats : List Material) (acc : ℚ)
    (hacc : 0 ≤ acc) (hnn : ∀ c ∈ relevantNewCutoffs b t mats, 0 ≤ c) :
    alphaCutoffLoop b t mats acc = (relevantNewCutoffs b t mats).foldl min acc := by
  induction mats generalizing acc with
  | nil =>
    simp only [alphaCutoffLoop, relevantNewCutoffs, List.filter_nil, List.map_nil,
      List.foldl_nil]
    exact max_eq_left hacc
  | cons m rest ih =>
    rw [relCons] at hnn ⊢
    simp only [alphaCutoffLoop]
    by_cases h1 : m.textureIds b ≠ t
    · have hu : ¬(usesBase b t m ∧ m.alphaMode ≠ AlphaMode.opq) := by
        intro h
        exact h1 h.1
      rw [if_neg hu] at hnn ⊢
      simpa [h1] using ih acc hacc hnn
    · have hu : usesBase b t m := not_not.mp h1
      by_cases h2 : m.alphaMode = AlphaMode.opq
      · have hcond : ¬(usesBase b t m ∧ m.alphaMode ≠ AlphaMode.opq) := by
          intro h
          exact h.2 h2
        rw [if_neg hcond] at hnn ⊢
        simpa [h1, h2] using ih acc hacc hnn
      · have hcond : usesBase b t m ∧ m.alphaMode ≠ AlphaMode.opq := ⟨hu, h2⟩
        rw [if_pos hcond] at hnn ⊢
        set newC := if m.alphaMode = AlphaMode.mask then m.alphaCutoff else 0 with hnewC
        have hnew0 : 0 ≤ newC := hnn newC (List.mem_cons_self _ _)
        have hrest : ∀ c ∈ relevantNewCutoffs b t rest, 0 ≤ c :=
          fun c hc => hnn c (List.mem_cons_of_mem _ hc)
        have h3 : ¬acc < 0 := not_lt.mpr hacc
        by_cases h4 : acc ≠ newC
        · by_cases h5 : acc = 0 ∨ newC = 0
          · have hminz : min acc newC = 0 := by
              rcases h5 with h | h
              · rw [h]
                exact min_eq_left hnew0
              · rw [h]
                exact min_eq_right hacc
            simp only [List.foldl_cons]
            rw [hminz] at *
            simp [h1, h2, h3, h4, h5, ← hnewC, hminz]
            rw [foldlMinOfLe _ _ hrest]
          · simp only [List.foldl_cons]
            simp [h1, h2, h3, h4, h5, ← hnewC]
            exact ih (min acc newC) (le_min hacc hnew0) hrest
        · have hae : acc = newC := not_not.mp h4
          simp only [List.foldl_cons]
          have : min acc newC = acc := by
            rw [← hae]
            exact min_self acc
          rw [this]
          simp [h1, h2, h3, h4, ← hnewC]
          exact ih acc hacc hrest

theorem loopStart (b : ℕ) (t : Int) (mats : List Material)
    (hnn : ∀ c ∈ relevantNewCutoffs b t mats, 0 ≤ c) :
    alphaCutoffLoop b t mats (-1) =
      (relevantNewCutoffs b t mats).foldl min (relevantNewCutoffs b t mats).headI := by
  induction mats with
  | nil =>
    simp only [alphaCutoffLoop, relevantNewCutoffs, List.filter_nil, List.map_nil,
      List.foldl_nil, List.headI_nil]
    norm_num
    rfl
  | cons m rest ih =>
    rw [relCons] at hnn ⊢
    simp only [alphaCutoffLoop]
    by_cases h1 : m.textureIds b ≠ t
    · have hu : ¬(usesBase b t m ∧ m.alphaMode ≠ AlphaMode.opq) := fun h => h1 h.1
      rw [if_neg hu] at hnn ⊢
      simpa [h1] using ih hnn
    · have hu : usesBase b t m := not_not.mp h1
      by_cases h2 : m.alphaMode = AlphaMode.opq
      · have hcond : ¬(usesBase b t m ∧ m.alphaMode ≠ AlphaMode.opq) :=
          fun h => h.2 h2
        rw [if_neg hcond] at hnn ⊢
        simpa [h1, h2] using ih hnn
      · have hcond : usesBase b t m ∧ m.alphaMode ≠ AlphaMode.opq := ⟨hu, h2⟩
        rw [if_pos hcond] at hnn ⊢
        set newC := if m.alphaMode = AlphaMode.mask then m.alphaCutoff else 0 with hnewC
        have hnew0 : 0 ≤ newC := hnn newC (List.mem_cons_self _ _)
        have hrest : ∀ c ∈ relevantNewCutoffs b t rest, 0 ≤ c :=
          fun c hc => hnn c (List.mem_cons_of_mem _ hc)
        have h3 : (-1 : ℚ) < 0 := by norm_num
        simp only [List.headI_cons, List.foldl_cons, min_self]
        simp [h1, h2, h3, ← hnewC]
        exact loopMin b t rest newC hnew0 hrest

/-- C10: `GetTextureAlphaCutoffValue` is always nonnegative; it returns
`0` when there is no base-color texture attribute or no non-opaque
material uses the texture as base color; when only alpha-mask materials
(with the glTF-mandated nonnegative thresholds) use it, it returns the
minimum of their cutoffs; and when both an alpha-mask and an alpha-blend
material use it, it returns `0`, disabling the remap. -/
theorem getTextureAlphaCutoffValueSpec (attribs : List TextureAttributeDesc)
    (mats : List Material) (t : Int) (b : ℕ)
    (hb : getTextureAttibuteIndex attribs BaseColorTextureName = Int.ofNat b)
    (hnn : ∀ m ∈ mats, 0 ≤ m.alphaCutoff) :
    (∀ (attribs2 : List TextureAttributeDesc) (mats2 : List Material) (t2 : Int),
      0 ≤ getTextureAlphaCutoffValue attribs2 mats2 t2)
    ∧ (∀ (attribs2 : List TextureAttributeDesc) (mats2 : List Material) (t2 : Int),
        getTextureAttibuteIndex attribs2 BaseColorTextureName = -1 →
        getTextureAlphaCutoffValue attribs2 mats2 t2 = 0)
    ∧ (relevantNewCutoffs b t mats = [] → getTextureAlphaCutoffValue attribs mats t = 0)
    ∧ ((∀ m ∈ mats, usesBase b t m → m.alphaMode ≠ AlphaMode.opq →
          m.alphaMode = AlphaMode.mask) →
        ∀ (c : ℚ) (cs : List ℚ), maskCutoffs b t mats = c :: cs →
          getTextureAlphaCutoffValue attribs mats t = cs.foldl min c)
    ∧ ((∃ m ∈ mats, usesBase b t m ∧ m.alphaMode = AlphaMode.mask) →
        (∃ m ∈ mats, usesBase b t m ∧ m.alphaMode = AlphaMode.blend) →
        getTextureAlphaCutoffValue attribs mats t = 0) := by
  have hval : getTextureAlphaCutoffValue attribs mats t =
      alphaCutoffLoop b t mats (-1) := by
    unfold getTextureAlphaCutoffValue
    rw [hb]
  have hrelnn := relNonneg b t mats hnn
  refine ⟨?_, ?_, ?_, ?_, ?_⟩
  · intro attribs2 mats2 t2
    unfold getTextureAlphaCutoffValue
    cases h : getTextureAttibuteIndex attribs2 BaseColorTextureName with
    | ofNat b2 => exact loopNonneg b2 t2 mats2 (-1)
    | negSucc k => exact le_refl 0
  · intro attribs2 mats2 t2 h2
    unfold getTextureAlphaCutoffValue
    rw [h2]
    rfl
  · intro hrel
    rw [hval, loopStart b t mats hrelnn, hrel]
    rfl
  · intro honly c cs hmask
    have hrel : relevantNewCutoffs b t mats = c :: cs :=
      (relEqMaskOfOnlyMask b t mats honly).trans hmask
    rw [hval, loopStart b t mats hrelnn, hrel]
    simp only [List.headI_cons, List.foldl_cons, min_self]
  · intro _ hblend
    obtain ⟨m, hm, hmu, hmb⟩ := hblend
    have h0mem : (0 : ℚ) ∈ relevantNewCutoffs b t mats := by
      unfold relevantNewCutoffs
      refine List.mem_map.mpr ⟨m, ?_, ?_⟩
      · refine List.mem_filter.mpr ⟨hm, ?_⟩
        have hno : m.alphaMode ≠ AlphaMode.opq := by
          rw [hmb]
          intro h
          cases h
        simp [hmu, hno]
      · have : m.alphaMode ≠ AlphaMode.mask := by
          rw [hmb]
          intro h
          cases h
        rw [if_neg this]
    rw [hval, loopStart b t mats hrelnn]
    have hne : relevantNewCutoffs b t mats ≠ [] := by
      intro h
      rw [h] at h0mem
      cases h0mem
    have hhead : (relevantNewCutoffs b t mats).headI ∈ relevantNewCutoffs b t mats :=
      headIMem _ hne
    have hle : (relevantNewCutoffs b t mats).foldl min
        (relevantNewCutoffs b t mats).headI ≤ 0 :=
      foldlMinLeMem _ _ _ h0mem
    have hge : 0 ≤ (relevantNewCutoffs b t mats).foldl min
        (relevantNewCutoffs b t mats).headI :=
      foldlMinNonneg _ _ (hrelnn _ hhead) hrelnn
    exact le_antisymm hle hge

theorem getTextureAlphaCutoffValueSpecW :
    getTextureAttibuteIndex demoAttribs BaseColorTextureName = Int.ofNat 0 ∧
      (∀ m ∈ demoMats, 0 ≤ m.alphaCutoff) ∧
      getTextureAlphaCutoffValue demoAttribs demoMats 0 = 1 / 4 := by
  have hb : getTextureAttibuteIndex demoAttribs BaseColorTextureName = Int.ofNat 0 := by
    decide
  have hnn : ∀ m ∈ demoMats, 0 ≤ m.alphaCutoff := by
    intro m hm
    simp only [demoMats, List.mem_cons, List.not_mem_nil, or_false] at hm
    rcases hm with rfl | rfl <;> norm_num
  have honly : ∀ m ∈ demoMats, usesBase 0 0 m → m.alphaMode ≠ AlphaMode.opq →
      m.alphaMode = AlphaMode.mask := by decide
  have hmask : maskCutoffs 0 0 demoMats = [1 / 2, 1 / 4] := by
    simp [maskCutoffs, demoMats, List.filter_cons, usesBase]
  refine ⟨hb, hnn, ?_⟩
  have h := (getTextureAlphaCutoffValueSpec demoAttribs demoMats 0 0 hb hnn).2.2.2.1
    honly (1 / 2) [1 / 4] hmask
  rw [h]
  norm_num [List.foldl_cons, List.foldl_nil, min_def]

/-! ## C5: STEP interpolation -/

theorem lerp3Zero (a b : float3) : lerp3 a b 0 = a := by
  simp [lerp3]

/-- C5: for a STEP channel and the keyframe bracket the scan finds, the
sampled value is exactly the earlier keyframe's output — for translation,
scale, and rotation channels alike — never a blend of the two keyframes.
(The rotation path renormalizes; keyframe rotations are unit quaternions,
which renormalization fixes.) -/
theorem stepInterpolation (E : ExtMath) (sampler : AnimationSampler) (t : ℚ) (i : ℕ)
    (A : NodeAnimation)
    (hmode : sampler.interpolation = InterpolationType.step)
    (hbr : findBracket sampler.inputs t = some i)
    (hslerp : ∀ a b, E.slerp a b 0 = a)
    (hnorm : E.normalizeQ (sampler.outputsVec4.getD i default).quat =
      (sampler.outputsVec4.getD i default).quat) :
    (sampleChannel E sampler PathType.translation t A).translation =
      (sampler.outputsVec4.getD i default).xyz
    ∧ (sampleChannel E sampler PathType.scale t A).scale =
      (sampler.outputsVec4.getD i default).xyz
    ∧ (sampleChannel E sampler PathType.rotation t A).rotation =
      (sampler.outputsVec4.getD i default).quat := by
  refine ⟨?_, ?_, ?_⟩
  · simp [sampleChannel, hbr, hmode, lerp3Zero]
  · simp [sampleChannel, hbr, hmode, lerp3Zero]
  · simp [sampleChannel, hbr, hmode, hslerp]
    simpa [List.getD, List.get?_eq_getElem?] using hnorm

theorem stepInterpolationW :
    demoStepSampler.interpolation = InterpolationType.step ∧
      findBracket demoStepSampler.inputs 1 = some 0 ∧
      (∀ a b, E0.slerp a b 0 = a) ∧
      (sampleChannel E0 demoStepSampler PathType.translation 1 default).translation =
        ⟨5, 6, 7⟩ ∧
      (sampleChannel E0 demoStepSampler PathType.rotation 1 default).rotation =
        ⟨5, 6, 7, 1⟩ := by
  have hbr : findBracket demoStepSampler.inputs 1 = some 0 := by decide
  have h := stepInterpolation E0 demoStepSampler 1 0 default rfl hbr
    (fun a b => rfl) rfl
  exact ⟨rfl, hbr, fun a b => rfl, h.1.trans (by decide), h.2.2.trans (by decide)⟩

/-! ## C4: LINEAR interpolation -/

/-- C4: for a LINEAR channel and the keyframe bracket the scan finds, the
evaluation time lies in the bracket, the interpolation parameter is
`u = (time − input[i]) / (input[i+1] − input[i])`, translation and scale
produce the component-wise linear interpolation of the bracketing outputs
at `u`, and rotation produces the renormalized spherical interpolation of
the bracketing quaternions at `u`. -/
theorem linearInterpolation (E : ExtMath) (sampler : AnimationSampler) (t : ℚ) (i : ℕ)
    (A : NodeAnimation)
    (hmode : sampler.interpolation = InterpolationType.linear)
    (hbr : findBracket sampler.inputs t = some i) :
    (sampler.inputs.getD i 0 ≤ t ∧ t ≤ sampler.inputs.getD (i + 1) 0)
    ∧ (sampleChannel E sampler PathType.translation t A).translation =
        lerp3 (sampler.outputsVec4.getD i default).xyz
          (sampler.outputsVec4.getD (i + 1) default).xyz
          ((t - sampler.inputs.getD i 0) /
            (sampler.inputs.getD (i + 1) 0 - sampler.inputs.getD i 0))
    ∧ (sampleChannel E sampler PathType.scale t A).scale =
        lerp3 (sampler.outputsVec4.getD i default).xyz
          (sampler.outputsVec4.getD (i + 1) default).xyz
          ((t - sampler.inputs.getD i 0) /
            (sampler.inputs.getD (i + 1) 0 - sampler.inputs.getD i 0))
    ∧ (sampleChannel E sampler PathType.rotation t A).rotation =
        E.normalizeQ (E.slerp (sampler.outputsVec4.getD i default).quat
          (sampler.outputsVec4.getD (i + 1) default).quat
          ((t - sampler.inputs.getD i 0) /
            (sampler.inputs.getD (i + 1) 0 - sampler.inputs.getD i 0))) := by
  refine ⟨?_, ?_, ?_, ?_⟩
  · have h := List.find?_some hbr
    simp only [Bool.and_eq_true, decide_eq_true_eq] at h
    exact h
  · simp [sampleChannel, hbr, hmode]
  · simp [sampleChannel, hbr, hmode]
  · simp [sampleChannel, hbr, hmode]

/-- C4 witness: with translation keyframes `(0, (0,0,0))` and
`(2, (2,0,0))`, evaluating at `t = 1` yields `(1, 0, 0)`. -/
theorem linearInterpolationW :
    demoLinearSampler.interpolation = InterpolationType.linear ∧
      findBracket demoLinearSampler.inputs 1 = some 0 ∧
      (sampleChannel E0 demoLinearSampler PathType.translation 1 default).translation =
        ⟨1, 0, 0⟩ := by
  have hbr : findBracket demoLinearSampler.inputs 1 = some 0 := by decide
  have h := (linearInterpolation E0 demoLinearSampler 1 0 default rfl hbr).2.1
  refine ⟨rfl, hbr, h.trans ?_⟩
  show lerp3 (float4.xyz (List.getD demoLinearSampler.outputsVec4 0 default))
      (float4.xyz (List.getD demoLinearSampler.outputsVec4 1 default)) _ = _
  norm_num [demoLinearSampler, lerp3, float4.xyz]

/-! ## C6: the animation time clamp -/

theorem clampLowOf (t lo hi : ℚ) (h : t < lo) : clampQ t lo hi = lo := if_pos h

theorem clampLoSelf (lo hi : ℚ) (h : lo ≤ hi) : clampQ lo lo hi = lo := by
  unfold clampQ
  rw [if_neg (lt_irrefl lo), if_neg (not_lt.mpr h)]

theorem clampHighOf (t lo hi : ℚ) (hlo : lo ≤ hi) (h : hi < t) : clampQ t lo hi = hi := by
  unfold clampQ
  rw [if_neg (not_lt.mpr (le_trans hlo (le_of_lt h))), if_pos h]

theorem clampHiSelf (lo hi : ℚ) (h : lo ≤ hi) : clampQ hi lo hi = hi := by
  unfold clampQ
  rw [if_neg (not_lt.mpr h), if_neg (lt_irrefl hi)]

theorem updateAnimationClamped (E : ExtMath) (model : Model) (i : ℕ) (a : Animation)
    (t : ℚ) (tr : ModelTransforms) (ha : model.animations.get? i = some a) :
    updateAnimation E model i t tr =
      (updateAnimationBody E model a (clampQ t a.startTime a.endTime) tr, false) := by
  unfold updateAnimation
  rw [ha]

/-- C6: animation evaluation clamps the requested time into
`[Start, End]` before sampling: the full `ComputeTransforms` output at any
`t < Start` equals the output at exactly `Start`, and at any `t > End` it
equals the output at exactly `End`. -/
theorem animationTimeClamp (E : ExtMath) (model : Model) (tr : ModelTransforms)
    (RT : Mat4) (i : ℕ) (a : Animation) (t : ℚ)
    (ha : model.animations.get? i = some a) (hse : a.startTime ≤ a.endTime) :
    (t < a.startTime →
      computeTransforms E model tr RT (Int.ofNat i) t =
        computeTransforms E model tr RT (Int.ofNat i) a.startTime)
    ∧ (a.endTime < t →
      computeTransforms E model tr RT (Int.ofNat i) t =
        computeTransforms E model tr RT (Int.ofNat i) a.endTime) := by
  have key : ∀ t1 t2 : ℚ,
      clampQ t1 a.startTime a.endTime = clampQ t2 a.startTime a.endTime →
      computeTransforms E model tr RT (Int.ofNat i) t1 =
        computeTransforms E model tr RT (Int.ofNat i) t2 := by
    intro t1 t2 hc
    have hnn : (0 : Int) ≤ Int.ofNat i := Int.ofNat_nonneg i
    have hto : (Int.ofNat i).toNat = i := rfl
    simp only [computeTransforms, hto, hnn, if_true]
    rw [updateAnimationClamped E model i a t1 _ ha, updateAnimationClamped E model i a t2 _ ha]
    rw [hc]
  refine ⟨fun h => key t _ ?_, fun h => key t _ ?_⟩
  · rw [clampLowOf _ _ _ h, clampLoSelf _ _ hse]
  · rw [clampHighOf _ _ _ hse h, clampHiSelf _ _ hse]

/-- C6 witness: evaluating the demo animation at `t = -3 < Start = 0`
produces the same transforms as evaluating at `Start`. -/
theorem animationTimeClampW :
    demoModelAnim.animations.get? 0 = some demoAnimation ∧
      demoAnimation.startTime ≤ demoAnimation.endTime ∧
      (-3 : ℚ) < demoAnimation.startTime ∧
      computeTransforms E0 demoModelAnim {} 1 (Int.ofNat 0) (-3) =
        computeTransforms E0 demoModelAnim {} 1 (Int.ofNat 0) demoAnimation.startTime := by
  have hse : demoAnimation.startTime ≤ demoAnimation.endTime := by
    norm_num [demoAnimation]
  have hlt : (-3 : ℚ) < demoAnimation.startTime := by norm_num [demoAnimation]
  exact ⟨rfl, hse, hlt,
    (animationTimeClamp E0 demoModelAnim {} 1 0 demoAnimation (-3) rfl hse).1 hlt⟩

/-! ## C9: the transform-buffer shape invariant -/

theorem foldlLengthInv {α β : Type} (step : List α → β → List α)
    (h : ∀ acc b, (step acc b).length = acc.length) :
    ∀ (l : List β) (acc : List α), (l.foldl step acc).length = acc.length
  | [], _ => rfl
  | b :: l, acc => by
    rw [List.foldl_cons, foldlLengthInv step h l _, h]

theorem foldlTransformsProj {β : Type} (step : ModelTransforms → β → ModelTransforms)
    (h : ∀ tr b, (step tr b).nodeLocalMatrices = tr.nodeLocalMatrices ∧
      (step tr b).nodeGlobalMatrices = tr.nodeGlobalMatrices) :
    ∀ (l : List β) (tr : ModelTransforms),
      (l.foldl step tr).nodeLocalMatrices = tr.nodeLocalMatrices ∧
        (l.foldl step tr).nodeGlobalMatrices = tr.nodeGlobalMatrices
  | [], _ => ⟨rfl, rfl⟩
  | b :: l, tr => by
    rw [List.foldl_cons]
    have h2 := foldlTransformsProj step h l (step tr b)
    exact ⟨h2.1.trans (h tr b).1, h2.2.trans (h tr b).2⟩

mutual

theorem updateNodeLength (locals : List Mat4) (parent : Mat4) (t : NodeTree)
    (gl : List Mat4) :
    (updateNodeGlobalTransform locals parent t gl).length = gl.length := by
  cases t with
  | mk i cs =>
    rw [updateNodeGlobalTransform, updateForestLength]
    exact List.length_set gl i _

theorem updateForestLength (locals : List Mat4) (parent : Mat4) (ts : List NodeTree)
    (gl : List Mat4) :
    (updateForestGlobal locals parent ts gl).length = gl.length := by
  cases ts with
  | nil => rfl
  | cons t ts =>
    rw [updateForestGlobal, updateForestLength, updateNodeLength]

end

theorem updateJointProj (E : ExtMath) (model : Model) (tr : ModelTransforms) :
    (updateJointMatrices E model tr).nodeLocalMatrices = tr.nodeLocalMatrices ∧
      (updateJointMatrices E model tr).nodeGlobalMatrices = tr.nodeGlobalMatrices := by
  unfold updateJointMatrices
  split
  · exact ⟨rfl, rfl⟩
  · refine foldlTransformsProj _ ?_ model.linearNodes tr
    intro tr2 b
    cases b.mesh <;> cases b.skin <;> exact ⟨rfl, rfl⟩

theorem updateAnimationBodyShape (E : ExtMath) (model : Model) (a : Animation)
    (time : ℚ) (tr : ModelTransforms)
    (h : tr.nodeLocalMatrices.length = model.linearNodes.length) :
    (updateAnimationBody E model a time tr).nodeLocalMatrices.length =
      model.linearNodes.length
    ∧ (updateAnimationBody E model a time tr).nodeGlobalMatrices =
      tr.nodeGlobalMatrices
    ∧ (updateAnimationBody E model a time tr).skins = tr.skins := by
  unfold updateAnimationBody
  refine ⟨?_, rfl, rfl⟩
  dsimp only
  have hanims : ∀ (chs : List AnimationChannel) (NA : List NodeAnimation),
      (chs.foldl
        (fun (NA : List NodeAnimation) channel =>
          let sampler := a.samplers.getD channel.samplerIndex default
          if sampler.inputs.length > sampler.outputsVec4.length then NA
          else NA.set channel.nodeIndex
            (sampleChannel E sampler channel.pathType time (NA.getD channel.nodeIndex default)))
        NA).length = NA.length := by
    refine foldlLengthInv _ ?_
    intro acc b
    dsimp only
    split
    · rfl
    · exact List.length_set acc _ _
  have hanims2 := fun NA => hanims a.channels NA
  rw [overwriteHeadOfLe]
  · rw [List.length_zipWith, hanims2, List.length_map, min_self]
  · rw [List.length_zipWith, hanims2, List.length_map, min_self, h]

theorem updateAnimationShape (E : ExtMath) (model : Model) (i : ℕ) (time : ℚ)
    (tr : ModelTransforms)
    (h : tr.nodeLocalMatrices.length = model.linearNodes.length) :
    (updateAnimation E model i time tr).1.nodeLocalMatrices.length =
      model.linearNodes.length
    ∧ (updateAnimation E model i time tr).1.nodeGlobalMatrices =
      tr.nodeGlobalMatrices := by
  unfold updateAnimation
  cases hg : model.animations.get? i with
  | none => exact ⟨h, rfl⟩
  | some a =>
    have hb := updateAnimationBodyShape E model a
      (clampQ time a.startTime a.endTime) tr h
    exact ⟨hb.1, hb.2.1⟩

/-- C9: every `ComputeTransforms` call establishes the shape invariant —
local- and global-matrix arrays sized exactly to `LinearNodes` — so
`CompatibleWithTransforms` holds on its output and `ComputeBoundingBox`
never takes the incompatible-transforms error branch on it. -/
theorem computeTransformsShape (E : ExtMath) (model : Model) (tr : ModelTransforms)
    (RT : Mat4) (ai : Int) (time : ℚ) :
    compatibleWithTransforms model (computeTransforms E model tr RT ai time) = true
    ∧ (computeBoundingBox E model (computeTransforms E model tr RT ai time)).isSome =
      true := by
  set n := model.linearNodes.length with hn
  have key : (computeTransforms E model tr RT ai time).nodeLocalMatrices.length = n ∧
      (computeTransforms E model tr RT ai time).nodeGlobalMatrices.length = n := by
    unfold computeTransforms
    by_cases hai : 0 ≤ ai
    · simp only [hai, if_true]
      have hres : (resizeD n tr.nodeLocalMatrices 1).length = n := resizeDLength ..
      have hua := updateAnimationShape E model ai.toNat time
        { tr with
          nodeGlobalMatrices := resizeD n tr.nodeGlobalMatrices 1
          nodeLocalMatrices := resizeD n tr.nodeLocalMatrices 1
          skins := resizeD model.skinTransformsCount tr.skins default } hres
      have hj := updateJointProj E model
        { (updateAnimation E model ai.toNat time
            { tr with
              nodeGlobalMatrices := resizeD n tr.nodeGlobalMatrices 1
              nodeLocalMatrices := resizeD n tr.nodeLocalMatrices 1
              skins := resizeD model.skinTransformsCount tr.skins default }).1 with
          nodeGlobalMatrices :=
            updateForestGlobal
              (updateAnimation E model ai.toNat time
                { tr with
                  nodeGlobalMatrices := resizeD n tr.nodeGlobalMatrices 1
                  nodeLocalMatrices := resizeD n tr.nodeLocalMatrices 1
                  skins := resizeD model.skinTransformsCount tr.skins default }).1.nodeLocalMatrices
              RT model.rootNodes
              (updateAnimation E model ai.toNat time
                { tr with
                  nodeGlobalMatrices := resizeD n tr.nodeGlobalMatrices 1
                  nodeLocalMatrices := resizeD n tr.nodeLocalMatrices 1
                  skins := resizeD model.skinTransformsCount tr.skins default }).1.nodeGlobalMatrices }
      rw [hj.1, hj.2]
      constructor
      · exact hua.1
      · rw [updateForestLength, hua.2, resizeDLength]
    · simp only [hai, if_false]
      have hloc :
          (overwriteHead (model.linearNodes.map (nodeLocalMatrix E))
            (resizeD n tr.nodeLocalMatrices 1)).length = n := by
        rw [overwriteHeadOfLe _ _ (by rw [resizeDLength, List.length_map])]
        exact List.length_map ..
      have hj := updateJointProj E model
        { tr with
          skins := []
          nodeLocalMatrices :=
            overwriteHead (model.linearNodes.map (nodeLocalMatrix E))
              (resizeD n tr.nodeLocalMatrices 1)
          nodeGlobalMatrices :=
            updateForestGlobal
              (overwriteHead (model.linearNodes.map (nodeLocalMatrix E))
                (resizeD n tr.nodeLocalMatrices 1))
              RT model.rootNodes (resizeD n tr.nodeGlobalMatrices 1) }
      rw [hj.1, hj.2]
      exact ⟨hloc, by rw [updateForestLength, resizeDLength]⟩
  have hc : compatibleWithTransforms model (computeTransforms E model tr RT ai time) =
      true := by
    unfold compatibleWithTransforms
    rw [key.1, key.2]
    simp
  refine ⟨hc, ?_⟩
  unfold computeBoundingBox
  rw [hc]
  simp

/-! ## C1: materialize-once across concurrent scene loads -/

theorem setNoneGetDSelf {α : Type} (l : List (Option α)) (s : ℕ) :
    (l.set s none).getD s none = none := by
  by_cases h : s < l.length
  · exact getDSetSelf l s none none h
  · rw [getDOfLe]
    rw [List.length_set]
    exact not_lt.mp h

theorem setNoneGetD {α : Type} (l : List (Option α)) (s k : ℕ)
    (h : l.getD k none = none) : (l.set s none).getD k none = none := by
  by_cases hsk : s = k
  · subst hsk
    exact setNoneGetDSelf l s
  · rw [getDSetNe _ _ _ hsk]
    exact h

theorem texUploadSlot (s k : ℕ) (tex : GpuTexInfo) (own : Bool) (p : TextureInitData)
    (c : GpuCmd) (hc : c ∈ texUploadCmds s tex own p)
    (hk : isTexUploadFor k c = true) : s = k := by
  unfold texUploadCmds at hc
  by_cases hl : p.levels ≠ []
  · rw [if_pos hl] at hc
    rcases List.mem_append.mp hc with h | h
    · obtain ⟨mip, _, rfl⟩ := List.mem_map.mp h
      simpa [isTexUploadFor] using hk
    · by_cases hg : p.levels.length = 1 ∧ 1 < tex.desc.mipLevels ∧ own = true
      · rw [if_pos hg] at h
        rw [List.mem_singleton.mp h] at hk
        simp [isTexUploadFor] at hk
      · rw [if_neg hg] at h
        cases h
  · rw [if_neg hl] at hc
    cases hst : p.stagingTex with
    | some st =>
      rw [hst] at hc
      obtain ⟨mip, _, rfl⟩ := List.mem_map.mp hc
      simpa [isTexUploadFor] using hk
    | none =>
      rw [hst] at hc
      cases hc

theorem texUploadExists (s : ℕ) (tex : GpuTexInfo) (own : Bool) (p : TextureInitData)
    (hl : p.levels ≠ []) :
    ∃ c ∈ texUploadCmds s tex own p, isTexUploadFor s c = true := by
  refine ⟨GpuCmd.updateTexture s 0, ?_, by simp [isTexUploadFor]⟩
  unfold texUploadCmds
  rw [if_pos hl]
  refine List.mem_append.mpr (Or.inl ?_)
  refine List.mem_map.mpr ⟨0, ?_, rfl⟩
  rw [List.mem_range]
  exact List.length_pos.mpr hl

theorem processTextureEnvChar (env : GpuEnv) (tex : GpuTexInfo) :
    ((processTexture env tex).2.2.texSlots =
      match backingSlot tex.backing with
      | some s => env.texSlots.set s none
      | none => env.texSlots)
    ∧ (processTexture env tex).2.2.bufSlots = env.bufSlots := by
  unfold processTexture
  cases htb : tex.backing with
  | noTexture => exact ⟨rfl, rfl⟩
  | atlasSuballoc s =>
    dsimp only
    cases hp : env.texSlots.getD s none <;> exact ⟨rfl, rfl⟩
  | ownTexture s =>
    dsimp only
    cases hp : env.texSlots.getD s none <;> exact ⟨rfl, rfl⟩

theorem processTextureEmit (env : GpuEnv) (tex : GpuTexInfo) (k : ℕ) (c : GpuCmd)
    (hc : c ∈ (processTexture env tex).1) (hk : isTexUploadFor k c = true) :
    backingSlot tex.backing = some k ∧ env.texSlots.getD k none ≠ none := by
  revert hc
  unfold processTexture
  cases htb : tex.backing with
  | noTexture =>
    intro hc
    exact absurd hc (List.not_mem_nil c)
  | atlasSuballoc s =>
    dsimp only
    cases hp : env.texSlots.getD s none with
    | none =>
      intro hc
      exact absurd hc (List.not_mem_nil c)
    | some p =>
      intro hc
      have hs := texUploadSlot s k tex false p c hc hk
      subst hs
      rw [backingSlot, hp]
      exact ⟨rfl, by simp⟩
  | ownTexture s =>
    dsimp only
    cases hp : env.texSlots.getD s none with
    | none =>
      intro hc
      exact absurd hc (List.not_mem_nil c)
    | some p =>
      intro hc
      have hs := texUploadSlot s k tex true p c hc hk
      subst hs
      rw [backingSlot, hp]
      exact ⟨rfl, by simp⟩

theorem processTextureEmitExists (env : GpuEnv) (tex : GpuTexInfo) (k : ℕ)
    (p : TextureInitData) (hb : backingSlot tex.backing = some k)
    (hp : env.texSlots.getD k none = some p) (hl : p.levels ≠ []) :
    ∃ c ∈ (processTexture env tex).1, isTexUploadFor k c = true := by
  unfold processTexture
  cases htb : tex.backing with
  | noTexture =>
    rw [htb] at hb
    cases hb
  | atlasSuballoc s =>
    rw [htb] at hb
    have hs : s = k := by simpa [backingSlot] using hb
    subst hs
    dsimp only
    rw [hp]
    exact texUploadExists s tex false p hl
  | ownTexture s =>
    rw [htb] at hb
    have hs : s = k := by simpa [backingSlot] using hb
    subst hs
    dsimp only
    rw [hp]
    exact texUploadExists s tex true p hl

theorem processBufferChar (env : GpuEnv) (buf : GpuBufInfo) (k : ℕ) :
    (processBuffer env buf).2.2.texSlots = env.texSlots
    ∧ ∀ c ∈ (processBuffer env buf).1, isTexUploadFor k c = false := by
  unfold processBuffer
  cases htb : buf.backing with
  | noBuffer => exact ⟨rfl, fun c hc => absurd hc (List.not_mem_nil c)⟩
  | suballoc s =>
    dsimp only
    cases hp : env.bufSlots.getD s false <;>
      refine ⟨rfl, ?_⟩ <;> intro c hc <;> simp at hc
    rw [hc]
    rfl
  | ownBuffer s =>
    dsimp only
    cases hp : env.bufSlots.getD s false <;>
      refine ⟨rfl, ?_⟩ <;> intro c hc <;> simp at hc
    rw [hc]
    rfl

theorem referencesIff (m : GpuModel) (k : ℕ) :
    referencesTexSlot m k = true ↔ ∃ t ∈ m.textures, backingSlot t.backing = some k := by
  simp only [referencesTexSlot, List.any_eq_true]
  constructor
  · rintro ⟨t, ht, hb⟩
    refine ⟨t, ht, ?_⟩
    revert hb
    cases htb : t.backing <;> simp [backingSlot]
  · rintro ⟨t, ht, hb⟩
    refine ⟨t, ht, ?_⟩
    revert hb
    cases htb : t.backing <;> simp [backingSlot]

theorem processTexturePreserve (env : GpuEnv) (t : GpuTexInfo) (k : ℕ)
    (h : backingSlot t.backing ≠ some k) :
    (processTexture env t).2.2.texSlots.getD k none = env.texSlots.getD k none := by
  rw [(processTextureEnvChar env t).1]
  cases hb : backingSlot t.backing with
  | none => rfl
  | some s =>
    have hsk : s ≠ k := fun he => h (by rw [hb, he])
    exact getDSetNe _ _ _ hsk

theorem texFoldMono (txs : List GpuTexInfo) :
    ∀ (acc : List GpuCmd × ℕ × GpuEnv), ∀ c ∈ acc.1, c ∈ (txs.foldl texStep acc).1 := by
  induction txs with
  | nil => exact fun acc c hc => hc
  | cons t ts ih =>
    intro acc c hc
    rw [List.foldl_cons]
    exact ih (texStep acc t) c (List.mem_append_left _ hc)

theorem bufFoldMono (bfs : List GpuBufInfo) :
    ∀ (acc : List GpuCmd × ℕ × GpuEnv), ∀ c ∈ acc.1, c ∈ (bfs.foldl bufStep acc).1 := by
  induction bfs with
  | nil => exact fun acc c hc => hc
  | cons b bs ih =>
    intro acc c hc
    rw [List.foldl_cons]
    exact ih (bufStep acc b) c (List.mem_append_left _ hc)

theorem texFoldNone (k : ℕ) (txs : List GpuTexInfo) :
    ∀ (acc : List GpuCmd × ℕ × GpuEnv), acc.2.2.texSlots.getD k none = none →
      ((txs.foldl texStep acc).2.2.texSlots.getD k none = none
        ∧ ∀ c ∈ (txs.foldl texStep acc).1, isTexUploadFor k c = true → c ∈ acc.1) := by
  induction txs with
  | nil => exact fun acc h => ⟨h, fun c hc _ => hc⟩
  | cons t ts ih =>
    intro acc h
    rw [List.foldl_cons]
    have hstep : (texStep acc t).2.2.texSlots.getD k none = none := by
      show (processTexture acc.2.2 t).2.2.texSlots.getD k none = none
      rw [(processTextureEnvChar acc.2.2 t).1]
      cases hb : backingSlot t.backing with
      | none => exact h
      | some s => exact setNoneGetD _ s k h
    have ih2 := ih (texStep acc t) hstep
    refine ⟨ih2.1, ?_⟩
    intro c hc hk
    rcases List.mem_append.mp (ih2.2 c hc hk) with h1 | h1
    · exact h1
    · exact absurd ((processTextureEmit acc.2.2 t k c h1 hk).2 h) id

theorem texFoldClear (k : ℕ) (txs : List GpuTexInfo) :
    ∀ (acc : List GpuCmd × ℕ × GpuEnv), (∃ t ∈ txs, backingSlot t.backing = some k) →
      (txs.foldl texStep acc).2.2.texSlots.getD k none = none := by
  induction txs with
  | nil =>
    rintro acc ⟨t, ht, _⟩
    cases ht
  | cons t ts ih =>
    rintro acc ⟨t2, ht2, hb2⟩
    rw [List.foldl_cons]
    rcases List.mem_cons.mp ht2 with rfl | hmem
    · have hstep : (texStep acc t2).2.2.texSlots.getD k none = none := by
        show (processTexture acc.2.2 t2).2.2.texSlots.getD k none = none
        rw [(processTextureEnvChar acc.2.2 t2).1, hb2]
        exact setNoneGetDSelf _ k
      exact (texFoldNone k ts (texStep acc t2) hstep).1
    · exact ih (texStep acc t) ⟨t2, hmem, hb2⟩

theorem texFoldEmit (k : ℕ) (p : TextureInitData) (hl : p.levels ≠ [])
    (txs : List GpuTexInfo) :
    ∀ (acc : List GpuCmd × ℕ × GpuEnv), acc.2.2.texSlots.getD k none = some p →
      (∃ t ∈ txs, backingSlot t.backing = some k) →
      ∃ c ∈ (txs.foldl texStep acc).1, isTexUploadFor k c = true := by
  induction txs with
  | nil =>
    rintro acc _ ⟨t, ht, _⟩
    cases ht
  | cons t ts ih =>
    rintro acc hp ⟨t2, ht2, hb2⟩
    rw [List.foldl_cons]
    by_cases hbt : backingSlot t.backing = some k
    · obtain ⟨c, hc, hk⟩ := processTextureEmitExists acc.2.2 t k p hbt hp hl
      exact ⟨c, texFoldMono ts (texStep acc t) c (List.mem_append_right _ hc), hk⟩
    · rcases List.mem_cons.mp ht2 with rfl | hmem
      · exact absurd hb2 hbt
      · refine ih (texStep acc t) ?_ ⟨t2, hmem, hb2⟩
        show (processTexture acc.2.2 t).2.2.texSlots.getD k none = some p
        rw [processTexturePreserve acc.2.2 t k hbt]
        exact hp

theorem texFoldEmitRef (k : ℕ) (txs : List GpuTexInfo) :
    ∀ (acc : List GpuCmd × ℕ × GpuEnv), ∀ c ∈ (txs.foldl texStep acc).1,
      isTexUploadFor k c = true →
      c ∈ acc.1 ∨ ∃ t ∈ txs, backingSlot t.backing = some k := by
  induction txs with
  | nil => exact fun acc c hc _ => Or.inl hc
  | cons t ts ih =>
    intro acc c hc hk
    rw [List.foldl_cons] at hc
    rcases ih (texStep acc t) c hc hk with h1 | h1
    · rcases List.mem_append.mp h1 with h2 | h2
      · exact Or.inl h2
      · exact Or.inr ⟨t, List.mem_cons_self _ _, (processTextureEmit acc.2.2 t k c h2 hk).1⟩
    · obtain ⟨t2, ht2, hb2⟩ := h1
      exact Or.inr ⟨t2, List.mem_cons_of_mem _ ht2, hb2⟩

theorem bufFoldChar (k : ℕ) (bfs : List GpuBufInfo) :
    ∀ (acc : List GpuCmd × ℕ × GpuEnv),
      (bfs.foldl bufStep acc).2.2.texSlots = acc.2.2.texSlots
      ∧ ∀ c ∈ (bfs.foldl bufStep acc).1, isTexUploadFor k c = true → c ∈ acc.1 := by
  induction bfs with
  | nil => exact fun acc => ⟨rfl, fun c hc _ => hc⟩
  | cons b bs ih =>
    intro acc
    rw [List.foldl_cons]
    have hch := processBufferChar acc.2.2 b k
    have ih2 := ih (bufStep acc b)
    refine ⟨ih2.1.trans hch.1, ?_⟩
    intro c hc hk
    rcases List.mem_append.mp (ih2.2 c hc hk) with h2 | h2
    · exact h2
    · exfalso
      have hfalse := hch.2 c h2
      rw [hk] at hfalse
      cases hfalse

theorem prepareNone (m : GpuModel) (env : GpuEnv) (k : ℕ)
    (h : env.texSlots.getD k none = none) :
    (∀ c ∈ (prepareGPUResources m env).2.2, isTexUploadFor k c = true → False)
    ∧ (prepareGPUResources m env).2.1.texSlots.getD k none = none := by
  by_cases hf : m.gpuDataInitialized
  · rw [prepareOfFlag m env hf]
    exact ⟨fun c hc _ => absurd hc (List.not_mem_nil c), h⟩
  · unfold prepareGPUResources
    rw [if_neg hf]
    dsimp only
    have hF1 := texFoldNone k m.textures ([], 0, env) h
    have hB := bufFoldChar k m.buffers (m.textures.foldl texStep ([], 0, env))
    constructor
    · intro c hc hk
      rcases List.mem_append.mp hc with h1 | h1
      · exact absurd (hF1.2 c (hB.2 c h1 hk) hk) (List.not_mem_nil c)
      · have hcval : c = GpuCmd.transitionResourceStates
            (m.buffers.foldl bufStep (m.textures.foldl texStep ([], 0, env))).2.1 := by
          revert h1
          split
          · exact fun h1 => List.mem_singleton.mp h1
          · exact fun h1 => absurd h1 (List.not_mem_nil c)
        rw [hcval] at hk
        cases hk
    · rw [hB.1]
      exact hF1.1

theorem prepareClear (m : GpuModel) (env : GpuEnv) (k : ℕ)
    (hflag : m.gpuDataInitialized = false) (href : referencesTexSlot m k = true) :
    (prepareGPUResources m env).2.1.texSlots.getD k none = none := by
  unfold prepareGPUResources
  rw [if_neg (by simp [hflag])]
  dsimp only
  rw [(bufFoldChar k m.buffers _).1]
  exact texFoldClear k m.textures ([], 0, env) ((referencesIff m k).mp href)

theorem prepareEmit (m : GpuModel) (env : GpuEnv) (k : ℕ) (p : TextureInitData)
    (hflag : m.gpuDataInitialized = false) (href : referencesTexSlot m k = true)
    (hslot : env.texSlots.getD k none = some p) (hl : p.levels ≠ []) :
    ∃ c ∈ (prepareGPUResources m env).2.2, isTexUploadFor k c = true := by
  unfold prepareGPUResources
  rw [if_neg (by simp [hflag])]
  dsimp only
  obtain ⟨c, hc, hk⟩ := texFoldEmit k p hl m.textures ([], 0, env) hslot
    ((referencesIff m k).mp href)
  exact ⟨c, List.mem_append_left _ (bufFoldMono m.buffers _ c hc), hk⟩

theorem prepareEmitRefs (m : GpuModel) (env : GpuEnv) (k : ℕ) (c : GpuCmd)
    (hc : c ∈ (prepareGPUResources m env).2.2) (hk : isTexUploadFor k c = true) :
    m.gpuDataInitialized = false ∧ referencesTexSlot m k = true := by
  by_cases hf : m.gpuDataInitialized
  · rw [prepareOfFlag m env hf] at hc
    exact absurd hc (List.not_mem_nil c)
  · refine ⟨by simpa using hf, ?_⟩
    unfold prepareGPUResources at hc
    rw [if_neg hf] at hc
    dsimp only at hc
    rcases List.mem_append.mp hc with h1 | h1
    · have h2 := (bufFoldChar k m.buffers _).2 c h1 hk
      rcases texFoldEmitRef k m.textures ([], 0, env) c h2 hk with h3 | h3
      · exact absurd h3 (List.not_mem_nil c)
      · exact (referencesIff m k).mpr h3
    · exfalso
      have hcval : c = GpuCmd.transitionResourceStates
          (m.buffers.foldl bufStep (m.textures.foldl texStep ([], 0, env))).2.1 := by
        revert h1
        split
        · exact fun h1 => List.mem_singleton.mp h1
        · exact fun h1 => absurd h1 (List.not_mem_nil c)
      rw [hcval] at hk
      cases hk

theorem runPrepareNone (k : ℕ) (Ms : List GpuModel) :
    ∀ env, env.texSlots.getD k none = none →
      ((runPrepare Ms env).1.countP fun cmds => cmds.any (isTexUploadFor k)) = 0 := by
  induction Ms with
  | nil => exact fun env _ => rfl
  | cons m ms ih =>
    intro env h
    rw [runPrepare]
    dsimp only
    rw [List.countP_cons]
    have hnone := prepareNone m env k h
    have hany : (prepareGPUResources m env).2.2.any (isTexUploadFor k) = false := by
      by_cases hb : (prepareGPUResources m env).2.2.any (isTexUploadFor k) = true
      · obtain ⟨c, hc2, hk2⟩ := List.any_eq_true.mp hb
        exact (hnone.1 c hc2 hk2).elim
      · simpa using hb
    simp only [hany, if_false, add_zero]
    exact ih _ hnone.2

theorem runPrepareAtMost (k : ℕ) (Ms : List GpuModel) :
    ∀ env, ((runPrepare Ms env).1.countP fun cmds => cmds.any (isTexUploadFor k)) ≤ 1 := by
  induction Ms with
  | nil => exact fun _ => Nat.zero_le 1
  | cons m ms ih =>
    intro env
    rw [runPrepare]
    dsimp only
    rw [List.countP_cons]
    by_cases hany : (prepareGPUResources m env).2.2.any (isTexUploadFor k) = true
    · obtain ⟨c, hc, hk⟩ := List.any_eq_true.mp hany
      have href := prepareEmitRefs m env k c hc hk
      have hrest := runPrepareNone k ms _ (prepareClear m env k href.1 href.2)
      rw [hrest]
      simp [hany]
    · have hb : (prepareGPUResources m env).2.2.any (isTexUploadFor k) = false := by
        simpa using hany
      simp only [hb, if_false, add_zero]
      exact ih _

/-- C1: materialize-once.  GPU command submission is single-threaded
(spec §5), so the `PrepareGPUResources` calls of N concurrent scene loads
serialize into a sequence over the shared payload slots.  For any such
sequence, at most one caller issues `UpdateTexture`/`CopyTexture` commands
for a given cache key; and when N ≥ 1 fresh loads all reference a texture
backed by key `k` whose pending payload is present, exactly one caller
(the first) issues the uploads for `k`, and every other caller finds the
slot already cleared and skips silently. -/
theorem materializeOnce (k : ℕ) (p : TextureInitData) (Ms : List GpuModel)
    (env : GpuEnv)
    (hslot : env.texSlots.getD k none = some p)
    (hlev : p.levels ≠ [])
    (hall : ∀ m ∈ Ms, m.gpuDataInitialized = false ∧ referencesTexSlot m k = true)
    (hne : Ms ≠ []) :
    (∀ (Ms2 : List GpuModel) (env2 : GpuEnv),
      ((runPrepare Ms2 env2).1.countP fun cmds => cmds.any (isTexUploadFor k)) ≤ 1)
    ∧ ((runPrepare Ms env).1.countP fun cmds => cmds.any (isTexUploadFor k)) = 1 := by
  refine ⟨fun Ms2 env2 => runPrepareAtMost k Ms2 env2, ?_⟩
  cases Ms with
  | nil => exact absurd rfl hne
  | cons m ms =>
    have hm := hall m (List.mem_cons_self _ _)
    rw [runPrepare]
    dsimp only
    rw [List.countP_cons]
    have hany : (prepareGPUResources m env).2.2.any (isTexUploadFor k) = true := by
      obtain ⟨c, hc, hk⟩ := prepareEmit m env k p hm.1 hm.2 hslot hlev
      exact List.any_eq_true.mpr ⟨c, hc, hk⟩
    have hrest := runPrepareNone k ms _ (prepareClear m env k hm.1 hm.2)
    rw [hrest]
    simp [hany]

/-- C1 witness: two fresh loads sharing the payload slot of one cached
texture; exactly one set of upload commands is issued. -/
theorem materializeOnceW :
    (({ texSlots := [some demoPayload], bufSlots := [] } : GpuEnv).texSlots.getD 0 none =
      some demoPayload)
    ∧ demoPayload.levels ≠ []
    ∧ (∀ m ∈ [demoGpuModel, demoGpuModel],
        m.gpuDataInitialized = false ∧ referencesTexSlot m 0 = true)
    ∧ ((runPrepare [demoGpuModel, demoGpuModel]
        { texSlots := [some demoPayload], bufSlots := [] }).1.countP
          fun cmds => cmds.any (isTexUploadFor 0)) = 1 := by
  refine ⟨by decide, by decide, by decide, ?_⟩
  exact (materializeOnce 0 demoPayload [demoGpuModel, demoGpuModel]
    { texSlots := [some demoPayload], bufSlots := [] }
    (by decide) (by decide) (by decide) (by decide)).2

/-! ## C3: the global-transform traversal -/

theorem idxMemTreeIndices (t : NodeTree) : t.idx ∈ treeIndices t := by
  cases t with
  | mk i cs => exact List.mem_cons_self _ _

theorem memForestIndicesOfMem {t : NodeTree} {ts : List NodeTree} (ht : t ∈ ts)
    {j : ℕ} (hj : j ∈ treeIndices t) : j ∈ forestIndices ts := by
  induction ts with
  | nil => cases ht
  | cons t2 ts2 ih =>
    rw [forestIndices]
    rcases List.mem_cons.mp ht with rfl | hmem
    · exact List.mem_append_left _ hj
    · exact List.mem_append_right _ (ih hmem)

mutual

theorem treeEdgesMem (t : NodeTree) (pr : ℕ × ℕ) (h : pr ∈ treeEdges t) :
    pr.1 ∈ treeIndices t ∧ pr.2 ∈ treeIndices t := by
  cases t with
  | mk i cs =>
    rw [treeEdges] at h
    rw [treeIndices]
    rcases List.mem_append.mp h with h1 | h1
    · obtain ⟨c, hc, rfl⟩ := List.mem_map.mp h1
      exact ⟨List.mem_cons_self _ _,
        List.mem_cons_of_mem _ (memForestIndicesOfMem hc (idxMemTreeIndices c))⟩
    · have h2 := forestEdgesMem cs pr h1
      exact ⟨List.mem_cons_of_mem _ h2.1, List.mem_cons_of_mem _ h2.2⟩

theorem forestEdgesMem (ts : List NodeTree) (pr : ℕ × ℕ) (h : pr ∈ forestEdges ts) :
    pr.1 ∈ forestIndices ts ∧ pr.2 ∈ forestIndices ts := by
  cases ts with
  | nil =>
    rw [forestEdges] at h
    cases h
  | cons t ts2 =>
    rw [forestEdges] at h
    rw [forestIndices]
    rcases List.mem_append.mp h with h1 | h1
    · have h2 := treeEdgesMem t pr h1
      exact ⟨List.mem_append_left _ h2.1, List.mem_append_left _ h2.2⟩
    · have h2 := forestEdgesMem ts2 pr h1
      exact ⟨List.mem_append_right _ h2.1, List.mem_append_right _ h2.2⟩

end

mutual

theorem updateNodeSpec (locals : List Mat4) (P : Mat4) (t : NodeTree) (gl : List Mat4)
    (hnd : (treeIndices t).Nodup) (hlt : ∀ j ∈ treeIndices t, j < gl.length) :
    (∀ j, j ∉ treeIndices t →
      (updateNodeGlobalTransform locals P t gl).getD j 1 = gl.getD j 1)
    ∧ (updateNodeGlobalTransform locals P t gl).getD t.idx 1 = locals.getD t.idx 1 * P
    ∧ ∀ pr ∈ treeEdges t,
        (updateNodeGlobalTransform locals P t gl).getD pr.2 1 =
          locals.getD pr.2 1 * (updateNodeGlobalTransform locals P t gl).getD pr.1 1 := by
  cases t with
  | mk i cs =>
    rw [treeIndices] at hnd hlt
    obtain ⟨hi, hndcs⟩ := List.nodup_cons.mp hnd
    have hilt : i < gl.length := hlt i (List.mem_cons_self _ _)
    rw [updateNodeGlobalTransform]
    have hlt2 : ∀ j ∈ forestIndices cs,
        j < (gl.set i (locals.getD i 1 * P)).length := by
      intro j hj
      rw [List.length_set]
      exact hlt j (List.mem_cons_of_mem _ hj)
    have F := updateForestSpec locals (locals.getD i 1 * P) cs
      (gl.set i (locals.getD i 1 * P)) hndcs hlt2
    have hgi : (updateForestGlobal locals (locals.getD i 1 * P) cs
        (gl.set i (locals.getD i 1 * P))).getD i 1 = locals.getD i 1 * P := by
      rw [F.1 i hi]
      exact getDSetSelf gl i _ 1 hilt
    refine ⟨?_, ?_, ?_⟩
    · intro j hj
      have hj1 : j ≠ i := fun he => hj (he ▸ List.mem_cons_self i (forestIndices cs))
      have hj2 : j ∉ forestIndices cs := fun hm => hj (List.mem_cons_of_mem _ hm)
      rw [F.1 j hj2]
      exact getDSetNe gl _ 1 (fun he => hj1 he.symm)
    · exact hgi
    · intro pr hpr
      rw [treeEdges] at hpr
      rcases List.mem_append.mp hpr with h1 | h1
      · obtain ⟨c, hc, rfl⟩ := List.mem_map.mp h1
        dsimp only
        rw [hgi]
        exact F.2.1 c hc
      · exact F.2.2 pr h1

theorem updateForestSpec (locals : List Mat4) (P : Mat4) (ts : List NodeTree)
    (gl : List Mat4)
    (hnd : (forestIndices ts).Nodup) (hlt : ∀ j ∈ forestIndices ts, j < gl.length) :
    (∀ j, j ∉ forestIndices ts →
      (updateForestGlobal locals P ts gl).getD j 1 = gl.getD j 1)
    ∧ (∀ t ∈ ts,
        (updateForestGlobal locals P ts gl).getD t.idx 1 = locals.getD t.idx 1 * P)
    ∧ ∀ pr ∈ forestEdges ts,
        (updateForestGlobal locals P ts gl).getD pr.2 1 =
          locals.getD pr.2 1 * (updateForestGlobal locals P ts gl).getD pr.1 1 := by
  cases ts with
  | nil =>
    refine ⟨fun j _ => rfl, fun t ht => absurd ht (List.not_mem_nil t), ?_⟩
    intro pr hpr
    rw [forestEdges] at hpr
    cases hpr
  | cons t ts2 =>
    rw [forestIndices] at hnd hlt
    obtain ⟨hndt, hndts, hdisj⟩ := List.nodup_append.mp hnd
    have hltt : ∀ j ∈ treeIndices t, j < gl.length :=
      fun j hj => hlt j (List.mem_append_left _ hj)
    have N := updateNodeSpec locals P t gl hndt hltt
    have hlen : (updateNodeGlobalTransform locals P t gl).length = gl.length :=
      updateNodeLength locals P t gl
    have hlts : ∀ j ∈ forestIndices ts2,
        j < (updateNodeGlobalTransform locals P t gl).length := by
      intro j hj
      rw [hlen]
      exact hlt j (List.mem_append_right _ hj)
    have F := updateForestSpec locals P ts2 (updateNodeGlobalTransform locals P t gl)
      hndts hlts
    rw [updateForestGlobal]
    refine ⟨?_, ?_, ?_⟩
    · intro j hj
      have hj1 : j ∉ treeIndices t := fun hm => hj (List.mem_append_left _ hm)
      have hj2 : j ∉ forestIndices ts2 := fun hm => hj (List.mem_append_right _ hm)
      rw [F.1 j hj2]
      exact N.1 j hj1
    · intro t2 ht2
      rcases List.mem_cons.mp ht2 with rfl | hmem
      · have hni : t2.idx ∉ forestIndices ts2 := hdisj (idxMemTreeIndices t2)
        rw [F.1 t2.idx hni]
        exact N.2.1
      · exact F.2.1 t2 hmem
    · intro pr hpr
      rw [forestEdges] at hpr
      rcases List.mem_append.mp hpr with h1 | h1
      · have hmem := treeEdgesMem t pr h1
        have hp1 : pr.1 ∉ forestIndices ts2 := hdisj hmem.1
        have hp2 : pr.2 ∉ forestIndices ts2 := hdisj hmem.2
        rw [F.1 pr.2 hp2, F.1 pr.1 hp1]
        exact N.2.2 pr h1
      · exact F.2.2 pr h1

end

theorem updateJointEmpty (E : ExtMath) (model : Model) (tr : ModelTransforms)
    (h : tr.skins = []) : updateJointMatrices E model tr = tr := by
  unfold updateJointMatrices
  rw [h]
  rfl

theorem nodeLocalMatrixDefault (E : ExtMath) (N : Node)
    (h1 : N.translation = ⟨0, 0, 0⟩) (h2 : N.rotation = ⟨0, 0, 0, 1⟩)
    (h3 : N.scale = ⟨1, 1, 1⟩) (h4 : N.matrix = 1) : nodeLocalMatrix E N = 1 := by
  unfold nodeLocalMatrix computeNodeLocalMatrix
  rw [h1, h2, h3, h4]
  simp

theorem getDMapLt {α β : Type} (f : α → β) (l : List α) (j : ℕ) (h : j < l.length)
    (d : β) : (l.map f).getD j d = f l[j] := by
  rw [List.getD_eq_getElem _ _ (by simpa using h)]
  simp

/-- C3: the global-transform pass is a depth-first pre-order traversal
from each root: each root's global matrix is its local matrix times the
caller-supplied root transform, and every child's global matrix is its
local matrix times its parent's global matrix
(`Global[child] = Local[child] * Global[parent]`, row-vector convention).
In particular, with every node at default TRS and identity matrix (no
animation), each root's global matrix equals the root transform exactly
and every other node's global matrix equals its parent's. -/
theorem globalTransformTraversal (E : ExtMath) (model : Model)
    (tr0 : ModelTransforms) (RT : Mat4)
    (hnd : (forestIndices model.rootNodes).Nodup)
    (hlt : ∀ j ∈ forestIndices model.rootNodes, j < model.linearNodes.length) :
    (∀ r ∈ model.rootNodes,
      (computeTransforms E model tr0 RT (-1) 0).nodeGlobalMatrices.getD r.idx 1 =
        (computeTransforms E model tr0 RT (-1) 0).nodeLocalMatrices.getD r.idx 1 * RT)
    ∧ (∀ pr ∈ forestEdges model.rootNodes,
        (computeTransforms E model tr0 RT (-1) 0).nodeGlobalMatrices.getD pr.2 1 =
          (computeTransforms E model tr0 RT (-1) 0).nodeLocalMatrices.getD pr.2 1 *
            (computeTransforms E model tr0 RT (-1) 0).nodeGlobalMatrices.getD pr.1 1)
    ∧ ((∀ N ∈ model.linearNodes, N.translation = ⟨0, 0, 0⟩ ∧
          N.rotation = ⟨0, 0, 0, 1⟩ ∧ N.scale = ⟨1, 1, 1⟩ ∧ N.matrix = 1) →
        (∀ r ∈ model.rootNodes,
          (computeTransforms E model tr0 RT (-1) 0).nodeGlobalMatrices.getD r.idx 1 = RT)
        ∧ ∀ pr ∈ forestEdges model.rootNodes,
            (computeTransforms E model tr0 RT (-1) 0).nodeGlobalMatrices.getD pr.2 1 =
              (computeTransforms E model tr0 RT (-1) 0).nodeGlobalMatrices.getD pr.1 1) := by
  have hneg : ¬(0 : Int) ≤ -1 := by norm_num
  have hml : (computeTransforms E model tr0 RT (-1) 0).nodeLocalMatrices =
      model.linearNodes.map (nodeLocalMatrix E) := by
    simp only [computeTransforms, hneg, if_false]
    rw [updateJointEmpty E model _ rfl]
    exact overwriteHeadOfLe _ _ (by rw [resizeDLength, List.length_map])
  have hmg : (computeTransforms E model tr0 RT (-1) 0).nodeGlobalMatrices =
      updateForestGlobal (model.linearNodes.map (nodeLocalMatrix E)) RT
        model.rootNodes
        (resizeD model.linearNodes.length tr0.nodeGlobalMatrices 1) := by
    simp only [computeTransforms, hneg, if_false]
    rw [updateJointEmpty E model _ rfl]
    dsimp only
    rw [overwriteHeadOfLe _ _ (by rw [resizeDLength, List.length_map])]
  have hlt2 : ∀ j ∈ forestIndices model.rootNodes,
      j < (resizeD model.linearNodes.length tr0.nodeGlobalMatrices 1).length := by
    intro j hj
    rw [resizeDLength]
    exact hlt j hj
  have spec := updateForestSpec (model.linearNodes.map (nodeLocalMatrix E)) RT
    model.rootNodes (resizeD model.linearNodes.length tr0.nodeGlobalMatrices 1)
    hnd hlt2
  have hlocD : ∀ j, j < model.linearNodes.length →
      (∀ N ∈ model.linearNodes, N.translation = ⟨0, 0, 0⟩ ∧
        N.rotation = ⟨0, 0, 0, 1⟩ ∧ N.scale = ⟨1, 1, 1⟩ ∧ N.matrix = 1) →
      (model.linearNodes.map (nodeLocalMatrix E)).getD j 1 = 1 := by
    intro j hj hdef
    rw [getDMapLt _ _ _ hj]
    have hN := hdef model.linearNodes[j] (List.getElem_mem hj)
    exact nodeLocalMatrixDefault E _ hN.1 hN.2.1 hN.2.2.1 hN.2.2.2
  refine ⟨?_, ?_, ?_⟩
  · intro r hr
    rw [hml, hmg]
    exact spec.2.1 r hr
  · intro pr hpr
    rw [hml, hmg]
    exact spec.2.2 pr hpr
  · intro hdef
    constructor
    · intro r hr
      rw [hmg]
      rw [spec.2.1 r hr]
      have hjr : r.idx < model.linearNodes.length :=
        hlt r.idx (memForestIndicesOfMem hr (idxMemTreeIndices r))
      rw [hlocD r.idx hjr hdef, one_mul]
    · intro pr hpr
      rw [hmg]
      rw [spec.2.2 pr hpr]
      have hjr : pr.2 < model.linearNodes.length :=
        hlt pr.2 (forestEdgesMem model.rootNodes pr hpr).2
      rw [hlocD pr.2 hjr hdef, one_mul]

/-- C3 witness: a two-node chain at default TRS; the root's global matrix
is exactly the supplied root transform and the child's equals the
root's. -/
theorem globalTransformTraversalW :
    (forestIndices demoModel2.rootNodes).Nodup ∧
      (∀ j ∈ forestIndices demoModel2.rootNodes, j < demoModel2.linearNodes.length) ∧
      (∀ r ∈ demoModel2.rootNodes,
        (computeTransforms E0 demoModel2 {} (translationMat ⟨3, 0, 0⟩)
          (-1) 0).nodeGlobalMatrices.getD r.idx 1 = translationMat ⟨3, 0, 0⟩) ∧
      ∀ pr ∈ forestEdges demoModel2.rootNodes,
        (computeTransforms E0 demoModel2 {} (translationMat ⟨3, 0, 0⟩)
          (-1) 0).nodeGlobalMatrices.getD pr.2 1 =
          (computeTransforms E0 demoModel2 {} (translationMat ⟨3, 0, 0⟩)
            (-1) 0).nodeGlobalMatrices.getD pr.1 1 := by
  have hnd : (forestIndices demoModel2.rootNodes).Nodup := by decide
  have hlt : ∀ j ∈ forestIndices demoModel2.rootNodes,
      j < demoModel2.linearNodes.length := by decide
  have hdef : ∀ N ∈ demoModel2.linearNodes, N.translation = ⟨0, 0, 0⟩ ∧
      N.rotation = ⟨0, 0, 0, 1⟩ ∧ N.scale = ⟨1, 1, 1⟩ ∧ N.matrix = 1 := by
    intro N hN
    simp only [demoModel2, List.mem_cons, List.not_mem_nil, or_false] at hN
    rcases hN with rfl | rfl <;> exact ⟨rfl, rfl, rfl, rfl⟩
  have h := (globalTransformTraversal E0 demoModel2 {} (translationMat ⟨3, 0, 0⟩)
    hnd hlt).2.2 hdef
  exact ⟨hnd, hlt, h.1, h.2⟩

end GLTF
